import Mathlib

/-!
# Unikraft SMP bring-up and reader-writer lock

A shallow embedding of `lib/uklock/rwlock.c`, `plat/kvm/arm/smp.c` and the
PSCI parts of `plat/kvm/arm/setup.c`, with the properties proved about them.

Conventions of the embedding:

* A spinlock critical section (`uk_spin_lock` ... `uk_spin_unlock`) is one
  atomic step. Every lock operation is cut into its critical sections, and
  the lock state at each `uk_spin_unlock` is what other callers can see.
* `UK_ASSERT` is taken as enabled. A failed assertion stops the operation and
  reports the lock state it fired in.
* A busy-wait loop is run with a bound on the number of iterations; running
  out of the bound is reported as `spinning`, never as a result.
-/

namespace Unikraft

/-! ## Reader-writer lock (`lib/uklock/rwlock.c`) -/

/-- The counters of `struct uk_rwlock`. The declaration lives in
`uk/rwlock.h`, which is not among the sources; the fields are the ones
`rwlock.c` touches. `nactive` is the signed count (`0` free, `> 0` that many
readers, `-1` one writer); the counters are unbounded integers, so `++` and
`--` are `+ 1` and `- 1` (the widths of the C fields are not known here and
signed overflow is undefined in C). The spinlock and the two wait queues
carry no data that `rwlock.c` reads. -/
structure uk_rwlock where
  nactive : Int
  npending_reads : Int
  npending_writes : Int
  config_flags : Nat
deriving DecidableEq, Repr

/-- Result of one spinlock critical section of a lock operation. -/
inductive Section where
  /-- the section ends with `uk_spin_unlock` and the operation returns -/
  | leave (l : uk_rwlock)
  /-- the section ends with `uk_spin_unlock` and the operation goes on polling -/
  | wait (l : uk_rwlock)
  /-- a `UK_ASSERT` fired inside the section, with the lock in state `l` -/
  | assertFailed (l : uk_rwlock)
deriving DecidableEq, Repr

/-- How a whole call of a lock operation ends when run alone. -/
inductive Outcome where
  | returned (l : uk_rwlock)
  | assertFailed (l : uk_rwlock)
  /-- the polling bound ran out while the operation was still in its loop -/
  | spinning (l : uk_rwlock)
deriving DecidableEq, Repr

/-- A call run alone: the lock states published by each `uk_spin_unlock`, in
order, and the way the call ended. -/
structure Run where
  visible : List uk_rwlock
  out : Outcome
deriving DecidableEq, Repr

/-- Modelled from the spec: `uk_rwlock_is_write_recursive` is a macro of
`uk/rwlock.h` (not among the sources) that tests the "write-recursive"
configuration flag; the bit mask of that flag is the parameter `wr_mask`. -/
def uk_rwlock_is_write_recursive (wr_mask : Nat) (l : uk_rwlock) : Bool :=
  l.config_flags &&& wr_mask != 0

/-- `uk_rwlock_init_config` (rwlock.c:13-28): the four stores, then the
assertion that the lock is not write-recursive. The argument `l` is the
memory the lock is built in. -/
def uk_rwlock_init_config (wr_mask : Nat) (_l : uk_rwlock) (config_flags : Nat) : Section :=
  let l1 : uk_rwlock :=
    { nactive := 0, npending_reads := 0, npending_writes := 0, config_flags := config_flags }
  if uk_rwlock_is_write_recursive wr_mask l1 then .assertFailed l1 else .leave l1

/-- `uk_rwlock_rlock`, first critical section (rwlock.c:34-36). -/
def rlock_register (l : uk_rwlock) : uk_rwlock :=
  { l with npending_reads := l.npending_reads + 1 }

/-- `uk_rwlock_rlock`, one pass of the loop and the tail (rwlock.c:38-47). -/
def rlock_poll (l : uk_rwlock) : Section :=
  if l.nactive ≥ 0 then
    .leave { l with nactive := l.nactive + 1, npending_reads := l.npending_reads - 1 }
  else .wait l

/-- `uk_rwlock_wlock`, first critical section (rwlock.c:54-57). -/
def wlock_register (l : uk_rwlock) : uk_rwlock :=
  { l with npending_writes := l.npending_writes + 1 }

/-- `uk_rwlock_wlock`, one pass of the loop and the tail (rwlock.c:58-70). -/
def wlock_poll (l : uk_rwlock) : Section :=
  if l.nactive = 0 then
    if ¬ (l.npending_writes > 0) then .assertFailed l
    else if ¬ (l.nactive = 0) then .assertFailed l
    else .leave { l with npending_writes := l.npending_writes - 1, nactive := -1 }
  else .wait l

/-- `uk_rwlock_runlock` (rwlock.c:79-89); `wake_writers` is computed and
dropped. -/
def runlock_section (l : uk_rwlock) : Section :=
  if ¬ (l.nactive > 0) then .assertFailed l
  else .leave { l with nactive := l.nactive - 1 }

/-- `uk_rwlock_wunlock` (rwlock.c:98-107); `wake_readers` is computed and
dropped. -/
def wunlock_section (l : uk_rwlock) : Section :=
  if ¬ (l.nactive = -1) then .assertFailed l
  else .leave { l with nactive := 0 }

/-- `uk_rwlock_upgrade`, first critical section (rwlock.c:114-129 and 146). -/
def upgrade_enter (l : uk_rwlock) : Section :=
  if l.nactive = 1 then .leave { l with nactive := -1 }
  else if ¬ (l.nactive > 1) then .assertFailed l
  else .wait { l with npending_writes := l.npending_writes + 1, nactive := l.nactive - 1 }

/-- `uk_rwlock_upgrade`, one pass of the loop and the tail (rwlock.c:130-146). -/
def upgrade_poll (l : uk_rwlock) : Section :=
  if l.nactive = 0 then
    if ¬ (l.npending_writes > 0) then .assertFailed l
    else if ¬ (l.nactive = 0) then .assertFailed l
    else .leave { l with npending_writes := l.npending_writes - 1, nactive := -1 }
  else .wait l

/-- `uk_rwlock_downgrade` (rwlock.c:155-164); `wake_readers` is computed and
dropped. -/
def downgrade_section (l : uk_rwlock) : Section :=
  if ¬ (l.nactive = -1) then .assertFailed l
  else .leave { l with nactive := 1 }

/-- A `while (1)` polling loop run alone, at most `fuel` passes. A pass that
has to wait publishes the unchanged lock and tries again. -/
def spin (poll : uk_rwlock → Section) : Nat → uk_rwlock → Run
  | 0, l => ⟨[], .spinning l⟩
  | fuel + 1, l =>
    match poll l with
    | .leave l1 => ⟨[l1], .returned l1⟩
    | .assertFailed l1 => ⟨[], .assertFailed l1⟩
    | .wait l1 => let r := spin poll fuel l1; ⟨l1 :: r.visible, r.out⟩

/-- A call made of a single critical section. -/
def single (s : Section) : Run :=
  match s with
  | .leave l1 => ⟨[l1], .returned l1⟩
  | .assertFailed l1 => ⟨[], .assertFailed l1⟩
  | .wait l1 => ⟨[l1], .spinning l1⟩

/-- `uk_rwlock_rlock` run alone. -/
def uk_rwlock_rlock (fuel : Nat) (l : uk_rwlock) : Run :=
  let l1 := rlock_register l
  let r := spin rlock_poll fuel l1
  ⟨l1 :: r.visible, r.out⟩

/-- `uk_rwlock_wlock` run alone. -/
def uk_rwlock_wlock (fuel : Nat) (l : uk_rwlock) : Run :=
  let l1 := wlock_register l
  let r := spin wlock_poll fuel l1
  ⟨l1 :: r.visible, r.out⟩

/-- `uk_rwlock_runlock`: one critical section, no loop. -/
def uk_rwlock_runlock (l : uk_rwlock) : Run := single (runlock_section l)

/-- `uk_rwlock_wunlock`: one critical section, no loop. -/
def uk_rwlock_wunlock (l : uk_rwlock) : Run := single (wunlock_section l)

/-- `uk_rwlock_upgrade` run alone: the first section either finishes the
call or leaves the caller polling. -/
def uk_rwlock_upgrade (fuel : Nat) (l : uk_rwlock) : Run :=
  match upgrade_enter l with
  | .leave l1 => ⟨[l1], .returned l1⟩
  | .assertFailed l1 => ⟨[], .assertFailed l1⟩
  | .wait l1 => let r := spin upgrade_poll fuel l1; ⟨l1 :: r.visible, r.out⟩

/-- `uk_rwlock_downgrade`: one critical section, no loop. -/
def uk_rwlock_downgrade (l : uk_rwlock) : Run := single (downgrade_section l)

/-! ### Callers under lock discipline -/

/-- Where a caller stands with respect to one lock. -/
inductive Caller where
  | idle
  /-- inside `uk_rwlock_rlock`, registered and polling -/
  | rlockWait
  /-- holds the lock as reader -/
  | reader
  /-- inside `uk_rwlock_wlock`, registered and polling -/
  | wlockWait
  /-- holds the lock as writer -/
  | writer
  /-- inside the slow path of `uk_rwlock_upgrade`, polling -/
  | upgradeWait
deriving DecidableEq, Repr

/-- The atomic steps a caller can take. -/
inductive Op where
  | rlock | wlock | runlock | wunlock | upgrade | downgrade
  /-- one more pass of the polling loop the caller is in -/
  | poll
deriving DecidableEq, Repr

/-- The lock together with its callers. -/
structure Sys where
  lock : uk_rwlock
  callers : List Caller
deriving DecidableEq, Repr

/-- Result of a critical section run by caller `t`: `done` if the operation
returns, `waiting` if it goes on polling. A failed assertion crashes the
system, which then has no next state. -/
def finish (s : Sys) (t : Nat) (done waiting : Caller) : Section → Option Sys
  | .leave l => some { lock := l, callers := s.callers.set t done }
  | .wait l => some { lock := l, callers := s.callers.set t waiting }
  | .assertFailed _ => none

/-- One atomic step of caller `t`. Lock discipline: only an idle caller
requests the lock, only a reader calls `runlock` or `upgrade`, only the
writer calls `wunlock` or `downgrade`. -/
def step (s : Sys) (t : Nat) (op : Op) : Option Sys :=
  match s.callers[t]?, op with
  | some .idle, .rlock =>
    some { lock := rlock_register s.lock, callers := s.callers.set t .rlockWait }
  | some .rlockWait, .poll => finish s t .reader .rlockWait (rlock_poll s.lock)
  | some .idle, .wlock =>
    some { lock := wlock_register s.lock, callers := s.callers.set t .wlockWait }
  | some .wlockWait, .poll => finish s t .writer .wlockWait (wlock_poll s.lock)
  | some .reader, .runlock => finish s t .idle .idle (runlock_section s.lock)
  | some .writer, .wunlock => finish s t .idle .idle (wunlock_section s.lock)
  | some .reader, .upgrade => finish s t .writer .upgradeWait (upgrade_enter s.lock)
  | some .upgradeWait, .poll => finish s t .writer .upgradeWait (upgrade_poll s.lock)
  | some .writer, .downgrade => finish s t .reader .reader (downgrade_section s.lock)
  | _, _ => none

/-- The states the system can be in: a lock that `uk_rwlock_init_config`
has just built, with `n` idle callers, and whatever a step leads to. -/
inductive Reachable (wr_mask : Nat) (n : Nat) : Sys → Prop where
  | init (mem l : uk_rwlock) (flags : Nat)
      (h : uk_rwlock_init_config wr_mask mem flags = .leave l) :
      Reachable wr_mask n { lock := l, callers := List.replicate n .idle }
  | next (s s1 : Sys) (t : Nat) (op : Op)
      (hs : Reachable wr_mask n s) (h : step s t op = some s1) :
      Reachable wr_mask n s1

/-- Number of callers holding the lock as reader. -/
def readers (s : Sys) : Nat := s.callers.count .reader

/-- Number of callers holding the lock as writer. -/
def writers (s : Sys) : Nat := s.callers.count .writer

/-- The invariant behind mutual exclusion: either nobody writes and
`nactive` counts the readers, or exactly one caller writes, nobody reads and
`nactive` is `-1`. -/
def LockInv (s : Sys) : Prop :=
  (writers s = 0 ∧ s.lock.nactive = (readers s : Int)) ∨
  (writers s = 1 ∧ readers s = 0 ∧ s.lock.nactive = -1)

/-! ### Calls made one after the other -/

/-- The two calls of a read-only history. -/
inductive RdCall where
  | rlock | runlock
deriving DecidableEq, Repr

/-- One call of a read-only history, run alone on lock `l`. -/
def rdCall (fuel : Nat) (l : uk_rwlock) : RdCall → Run
  | .rlock => uk_rwlock_rlock fuel l
  | .runlock => uk_rwlock_runlock l

/-- Calls made one after the other, each on the lock the previous one left.
The result is the lock after the last call, or `none` as soon as a call does
not return (failed assertion, or still polling when the bound runs out). -/
def callSeq (fuel : Nat) : uk_rwlock → List RdCall → Option uk_rwlock
  | l, [] => some l
  | l, c :: cs =>
    match (rdCall fuel l c).out with
    | .returned l1 => callSeq fuel l1 cs
    | _ => none

/-- Every `runlock` is matched by an earlier `rlock`: in each initial
segment of the history there are at least as many `rlock` as `runlock`. -/
def Matched (cs : List RdCall) : Prop :=
  ∀ k, (cs.take k).count .runlock ≤ (cs.take k).count .rlock

/-! ## Firmware calls and core bring-up (`plat/kvm/arm/smp.c`, `setup.c`) -/

/-- The two conduits of a PSCI call: `smcc_psci_hvc_call` (trap to the
hypervisor) and `smcc_psci_smc_call` (secure monitor). -/
inductive Conduit where
  | hvc | smc
deriving DecidableEq, Repr

/-- `PSCI_FNID_CPU_ON` for `__aarch64__` (psci.h:43). -/
def PSCI_FNID_CPU_ON : Nat := 0xc4000003

/-- `PSCI_RET_SUCCESS` (psci.h:74). -/
def PSCI_RET_SUCCESS : Int := 0

/-- `PSCI_RET_NOT_SUPPORTED` (psci.h:75). -/
def PSCI_RET_NOT_SUPPORTED : Int := -1

/-- One firmware call as it leaves the kernel: the conduit it goes through
and its four words `(function_id, arg0, arg1, arg2)`. -/
structure PsciCall where
  conduit : Conduit
  fnid : Nat
  arg0 : Nat
  arg1 : Nat
  arg2 : Nat
deriving DecidableEq, Repr

/-- A string property of the device tree as `fdt_get_property` /
`fdt_getprop` hand it out: its length in bytes and its data read as a C
string. -/
structure StrProp where
  prop_len : Int
  data : String
deriving DecidableEq, Repr

/-- The `reg` property of a cpu node: its length in bytes and the number
`fdt_reg_read_number` reads from it with the address cells of `/cpus`
(libfdt and `ofw/fdt.h` are outside the sources). -/
structure RegProp where
  prop_len : Int
  number : Nat
deriving DecidableEq, Repr

/-- One subnode of `/cpus`, by the three properties `smp_init` asks for. -/
structure CpuNode where
  enable_method : Option String
  device_type : Option StrProp
  reg : Option RegProp
deriving DecidableEq, Repr

/-- The part of the device tree the bring-up code reads. `cpus` is the
`/cpus` node: the first cell of its `#address-cells` property, if present,
and its subnodes in order; it is `none` when `fdt_path_offset` finds no such
node (libfdt then finds no property and no subnode). `psci_1_0` and
`psci_0_2` are the `method` property of the first node compatible with
`"arm,psci-1.0"` and `"arm,psci-0.2"`; the outer `none` means no such node. -/
structure Dtb where
  cpus : Option (Option Nat × List CpuNode)
  psci_1_0 : Option (Option StrProp)
  psci_0_2 : Option (Option StrProp)
deriving DecidableEq, Repr

/-- `struct arm64_cpu` (smp.c:62-67). Pointers are the addresses they hold;
`fnlist` is the list of queued work, empty after `UK_INIT_LIST_HEAD`. -/
structure arm64_cpu where
  id : Nat
  entry : Nat
  stackp : Nat
  fnlist : List Nat
deriving DecidableEq, Repr

/-- The globals of smp.c and the conduit pointer of setup.c. `cpus` is the
array `cpus[CONFIG_MAX_CPUS]`: its length is `CONFIG_MAX_CPUS`.
`smcc_psci_call` is `none` for a `NULL` pointer. -/
structure SmpState where
  cpus : List arm64_cpu
  smp_numcores : Nat
  bspid : Nat
  bspdone : Nat
  smp_aps_started : Nat
  smp_aps_running : Nat
  smcc_psci_call : Option Conduit
deriving DecidableEq, Repr

/-- What the platform fixes and the sources do not show. -/
structure Platform where
  /-- `FDT_MAX_NCELLS` of libfdt -/
  FDT_MAX_NCELLS : Int
  /-- `ukplat_virt_to_phys(_lcpu_start)`, the physical address of the trampoline -/
  lcpu_start_paddr : Nat
  /-- the address of `cpus[i]`, that is `&(cpus[i])` -/
  cpu_addr : Nat → Nat

/-- `_dtb_get_psci_method` (setup.c:83-124): the value it leaves in
`smcc_psci_call`. -/
def _dtb_get_psci_method (dtb : Dtb) : Option Conduit :=
  let fdtpsci : Option (Option StrProp) :=
    match dtb.psci_1_0 with
    | some n => some n
    | none => dtb.psci_0_2
  match fdtpsci with
  | none => none
  | some none => none
  | some (some fdtmethod) =>
    if fdtmethod.prop_len ≤ 0 then none
    else if fdtmethod.data = "hvc" then some .hvc
    else if fdtmethod.data = "smc" then some .smc
    else none

/-- `psci_cpu_on` (smp.c:161-166): the firmware call it issues for the
descriptor `cpus[cpu]` it is handed a pointer to. The call is written against
`smcc_psci_hvc_call`; `smcc_psci_call` is not read. `none` if the pointer is
outside the array. -/
def psci_cpu_on (p : Platform) (st : SmpState) (cpu : Nat) (entry : Nat) : Option PsciCall :=
  match st.cpus[cpu]? with
  | none => none
  | some d =>
    some { conduit := .hvc, fnid := PSCI_FNID_CPU_ON, arg0 := d.id, arg1 := entry,
           arg2 := p.cpu_addr cpu }

/-- `ukplat_lcpu_id` (smp.c:262-269), from the value `SYSREG_READ32` put
into `mpidr_reg`; the result is a `__lcpuid`, 32 bits wide (lcpu.h:98). -/
def ukplat_lcpu_id (mpidr_reg : Nat) : Nat :=
  (mpidr_reg &&& 0xff00ffffff) % 2 ^ 32

/-- How `smp_init` ends. -/
inductive InitResult where
  /-- `UK_CRASH` -/
  | crash
  /-- a store behind the end of `cpus[]` -/
  | overrun (index : Nat)
  | ret (value : Int) (st : SmpState)
deriving DecidableEq, Repr

/-- How the subnode loop of `smp_init` ends. -/
inductive NodeLoop where
  | overrun (index : Nat)
  /-- `return -1` from inside the loop -/
  | error (cpus : List arm64_cpu)
  /-- the loop ran to its end -/
  | done (index : Nat) (cpus : List arm64_cpu)
deriving DecidableEq, Repr

/-- The loop `fdt_for_each_subnode` of `smp_init` (smp.c:113-151). -/
def smp_init_nodes : List CpuNode → Nat → List arm64_cpu → NodeLoop
  | [], index, cpus => .done index cpus
  | n :: ns, index, cpus =>
    match n.enable_method with
    | none => .error cpus
    | some m =>
      if m ≠ "psci" then .error cpus
      else
        match n.device_type with
        | none => smp_init_nodes ns index cpus
        | some dt =>
          if dt.prop_len < 4 then smp_init_nodes ns index cpus
          else if dt.data ≠ "cpu" then smp_init_nodes ns index cpus
          else
            match n.reg with
            | none => .error cpus
            | some r =>
              if r.prop_len ≤ 0 then .error cpus
              else
                match cpus[index]? with
                | none => .overrun index
                | some d =>
                  smp_init_nodes ns (index + 1)
                    (cpus.set index { d with id := r.number % 2 ^ 64 })

/-- `smp_init` (smp.c:87-159). `naddr0` is what the uninitialised local
`naddr` holds when `#address-cells` is not found, `mpidr_reg` what the
register read of `ukplat_lcpu_id` yields. -/
def smp_init (p : Platform) (dtb : Dtb) (naddr0 : Int) (mpidr_reg : Nat)
    (st : SmpState) : InitResult :=
  let cpus0 := st.cpus.map fun d => { d with id := 2 ^ 64 - 1 }
  let cells : Option Nat := match dtb.cpus with
    | some (c, _) => c
    | none => none
  let subnodes : List CpuNode := match dtb.cpus with
    | some (_, ns) => ns
    | none => []
  let naddr : Int := match cells with
    | some c => if c % 2 ^ 32 < 2 ^ 31 then (c % 2 ^ 32 : Nat) else (c % 2 ^ 32 : Nat) - 2 ^ 32
    | none => naddr0
  if naddr < 0 ∨ naddr ≥ p.FDT_MAX_NCELLS then .crash
  else
    match smp_init_nodes subnodes 0 cpus0 with
    | .overrun index => .overrun index
    | .error cpus => .ret (-1) { st with cpus := cpus }
    | .done index cpus =>
      .ret 0 { st with cpus := cpus, smp_numcores := index, bspid := ukplat_lcpu_id mpidr_reg }

/-- The arguments of `ukplat_lcpu_start`: `lcpuid` is `none` for a `NULL`
pointer. -/
structure StartRequest where
  lcpuid : Option (List Nat)
  sp : List Nat
  entry : List Nat
  num : Int
deriving DecidableEq, Repr

/-- The firmware: the return value of a call, given the calls made before. -/
abbrev Firmware := List PsciCall → PsciCall → Int

/-- The state of the power-on loop: the globals, and the firmware calls
issued so far with their return values, oldest first. -/
structure Bringup where
  st : SmpState
  calls : List (PsciCall × Int)
deriving DecidableEq, Repr

/-- One pass of the power-on loop of `ukplat_lcpu_start` (smp.c:179-196),
for loop index `i`. `none` is an access outside an array (`lcpuid[i]`,
`cpus[logic_id]`, `entry[i]` or `sp[i]`). -/
def lcpu_start_iter (p : Platform) (fw : Firmware) (req : StartRequest)
    (b : Bringup) (i : Nat) : Option Bringup :=
  let logic_id? : Option Nat := match req.lcpuid with
    | some ids => ids[i]?
    | none => some (i % 2 ^ 32)
  match logic_id? with
  | none => none
  | some logic_id =>
    match b.st.cpus[logic_id]? with
    | none => none
    | some d =>
      if d.id = b.st.bspid then some b
      else if logic_id > b.st.smp_numcores then some b
      else
        match req.entry[i]?, req.sp[i]? with
        | some e, some s =>
          let st1 : SmpState :=
            { b.st with
              cpus := b.st.cpus.set logic_id ({ d with entry := e, stackp := s, fnlist := [] }) }
          match psci_cpu_on p st1 logic_id p.lcpu_start_paddr with
          | none => none
          | some call =>
            let err := fw (b.calls.map Prod.fst) call
            some { st := st1, calls := b.calls ++ [(call, err)] }
        | _, _ => none

/-- The power-on loop `for (i = 0; i < num; i++)`, from index `i` with
`rem` passes to go. -/
def lcpu_start_loop (p : Platform) (fw : Firmware) (req : StartRequest) :
    Nat → Nat → Bringup → Option Bringup
  | 0, _, b => some b
  | rem + 1, i, b =>
    match lcpu_start_iter p fw req b i with
    | none => none
    | some b1 => lcpu_start_loop p fw req rem (i + 1) b1

/-- What the boot core sees when it reads the shared counters at a poll:
`(smp_aps_running, smp_aps_started)`, both `__u64`. The counters are written
by the other cores, so the values of successive polls are an input. -/
abbrev Observed := Nat → Nat × Nat

/-- The wait loop of `ukplat_lcpu_start` (smp.c:214-231) from loop counter
`i`, recorded value `old_aps_running` and poll number `k`, at most `fuel`
passes. The result is the return value and the number of polls made. -/
def aps_poll (obs : Observed) : Nat → Nat → Nat → Nat → Option (Int × Nat)
  | 0, _, _, _ => none
  | fuel + 1, i, old_aps_running, k =>
    if ¬ (i < 20000) then some (-1, k)
    else
      let smp_aps_running := (obs k).1 % 2 ^ 64
      let smp_aps_started := (obs k).2 % 2 ^ 64
      if smp_aps_running = smp_aps_started then some (0, k + 1)
      else if smp_aps_running > old_aps_running then
        aps_poll obs fuel (0 + 1) smp_aps_running (k + 1)
      else
        aps_poll obs fuel (i + 1) old_aps_running (k + 1)

/-- How `ukplat_lcpu_start` ends. -/
inductive StartResult where
  /-- an access outside an array in the power-on loop -/
  | fault
  /-- the bound on the passes of the wait loop ran out -/
  | polling (b : Bringup)
  /-- the function returns `value` after `polls` polls of the counters -/
  | ret (value : Int) (b : Bringup) (polls : Nat)
deriving DecidableEq, Repr

/-- `ukplat_lcpu_start` (smp.c:169-232). -/
def ukplat_lcpu_start (p : Platform) (fw : Firmware) (obs : Observed) (fuel : Nat)
    (st : SmpState) (req : StartRequest) : StartResult :=
  let st0 : SmpState := { st with smp_aps_started := 0, bspdone := 0 }
  match lcpu_start_loop p fw req req.num.toNat 0 { st := st0, calls := [] } with
  | none => .fault
  | some b =>
    if b.st.smp_numcores = 1 then .ret 0 b 0
    else
      let b1 : Bringup := { b with st := { b.st with smp_aps_running := 0, bspdone := 1 } }
      match aps_poll obs fuel 0 0 0 with
      | none => .polling b1
      | some (value, polls) => .ret value b1 polls

/-! ### A two-core machine, used in the worked examples -/

/-- A platform with descriptors of 48 bytes laid out from `0x40200000` and
the trampoline at `0x40080000`. -/
def demoPlatform : Platform :=
  { FDT_MAX_NCELLS := 4, lcpu_start_paddr := 0x40080000,
    cpu_addr := fun i => 0x40200000 + 48 * i }

/-- The globals after discovery of two cores (hardware ids `0` and `1`) on a
kernel built with `CONFIG_MAX_CPUS = 4`; the boot core is hardware id `0`,
and the conduit named by the device tree is `c`. -/
def demoState (c : Option Conduit) : SmpState :=
  { cpus := [⟨0, 0, 0, []⟩, ⟨1, 0, 0, []⟩, ⟨2 ^ 64 - 1, 0, 0, []⟩, ⟨2 ^ 64 - 1, 0, 0, []⟩],
    smp_numcores := 2, bspid := 0, bspdone := 0, smp_aps_started := 0,
    smp_aps_running := 0, smcc_psci_call := c }

/-- A firmware that accepts every call. -/
def fwAccept : Firmware := fun _ _ => PSCI_RET_SUCCESS

/-! ### Reading the wait loop poll by poll -/

/-- The value of `smp_aps_running` read at poll `k`. -/
def runningAt (obs : Observed) (k : Nat) : Nat := (obs k).1 % 2 ^ 64

/-- The value of `smp_aps_started` read at poll `k`. -/
def startedAt (obs : Observed) (k : Nat) : Nat := (obs k).2 % 2 ^ 64

/-- The last recorded value: what `old_aps_running` holds when poll `k` is
made, `0` at first and then the largest value of `smp_aps_running` read so
far. -/
def recorded (obs : Observed) : Nat → Nat
  | 0 => 0
  | k + 1 => if runningAt obs k > recorded obs k then runningAt obs k else recorded obs k

/-- Poll `k` observes `running == started`. -/
def SeesAll (obs : Observed) (k : Nat) : Prop := runningAt obs k = startedAt obs k

/-- Poll `k` observes an increase: `running` greater than the last recorded
value. -/
def SeesProgress (obs : Observed) (k : Nat) : Prop := runningAt obs k > recorded obs k

/-- The loop counter `i` when poll `k` is made: `0` at first, set to `0` and
then incremented by a poll that observes an increase, incremented by every
other poll. -/
def counterAt (obs : Observed) : Nat → Nat
  | 0 => 0
  | k + 1 => if runningAt obs k > recorded obs k then 0 + 1 else counterAt obs k + 1

/-- A full budget elapses without result, as the timeout is described:
20000 consecutive polls, the first being poll `j`, none of which (nor any
poll before them) observes `running == started` and none of which observes
an increase. -/
def StalledFullBudget (obs : Observed) : Prop :=
  ∃ j, (∀ m, m < j + 20000 → ¬ SeesAll obs m) ∧
    (∀ m, j ≤ m → m < j + 20000 → ¬ SeesProgress obs m)

/-- A budget elapses without result, as the loop counts it: 20000
consecutive polls, the first being poll `j`, none of which (nor any poll
before them) observes `running == started` and none of which, the first one
apart, observes an increase. -/
def StalledAfterFirst (obs : Observed) : Prop :=
  ∃ j, (∀ m, m < j + 20000 → ¬ SeesAll obs m) ∧
    (∀ m, j < m → m < j + 20000 → ¬ SeesProgress obs m)

/-- One core is seen running at every poll, the second of two started cores
only from poll 20000 on. -/
def lateCore : Observed := fun k => if k < 20000 then (1, 2) else (2, 2)

/-! ### What the power-on loop is expected to do -/

/-- A requested logical id is to be started when its descriptor is not the
boot core's (hardware id different from `bspid`) and the id is not in excess
of the discovered count (`logic_id > smp_numcores` is false). -/
def toStart (st : SmpState) (logic_id : Nat) : Bool :=
  match st.cpus[logic_id]? with
  | some d => !(d.id == st.bspid) && !(decide (logic_id > st.smp_numcores))
  | none => false

/-- The power-on call for logical id `logic_id`: function id
`PSCI_FNID_CPU_ON`, the hardware id of its descriptor as target, the physical
address of the trampoline as entry and the address of the descriptor as
context word, through the hypervisor-call conduit. -/
def powerOn (p : Platform) (st : SmpState) (logic_id : Nat) : PsciCall :=
  { conduit := .hvc, fnid := PSCI_FNID_CPU_ON,
    arg0 := match st.cpus[logic_id]? with
      | some d => d.id
      | none => 0,
    arg1 := p.lcpu_start_paddr, arg2 := p.cpu_addr logic_id }

/-- The bring-up state a call of `ukplat_lcpu_start` ends in, if it ends
without an access outside an array. -/
def StartResult.bringup : StartResult → Option Bringup
  | .fault => none
  | .polling b => some b
  | .ret _ b _ => some b

/-- The globals other than the descriptors' entry, stack and work list are
the ones of `st`: same `bspid`, same count, same hardware ids. -/
def SameCores (st : SmpState) (b : Bringup) : Prop :=
  b.st.bspid = st.bspid ∧ b.st.smp_numcores = st.smp_numcores ∧
  ∀ j : Nat, (b.st.cpus[j]?).map arm64_cpu.id = (st.cpus[j]?).map arm64_cpu.id

/-! ### Reading the device tree -/

/-- A subnode counts as a cpu when it has a `device_type` property of at
least 4 bytes whose string is `"cpu"`. -/
def isCpu (n : CpuNode) : Bool :=
  match n.device_type with
  | some dt => decide (4 ≤ dt.prop_len) && (dt.data == "cpu")
  | none => false

/-- The hardware id a cpu subnode declares: the number read from its `reg`
property, as a 64-bit value. -/
def hwid (n : CpuNode) : Nat :=
  match n.reg with
  | some r => r.number % 2 ^ 64
  | none => 0

/-- A cpu subnode with enable-method `"psci"` and hardware id `hw`, its
`reg` property one cell long. -/
def cpuNode (hw : Nat) : CpuNode :=
  { enable_method := some "psci", device_type := some ⟨4, "cpu"⟩, reg := some ⟨4, hw⟩ }

/-- A device tree whose `/cpus` node has one address cell and the subnodes
`nodes`, and whose PSCI node names the method `method`. -/
def demoDtb (nodes : List CpuNode) (method : Option StrProp) : Dtb :=
  { cpus := some (some 1, nodes), psci_1_0 := some method, psci_0_2 := none }

/-- The globals before discovery on a kernel built with
`CONFIG_MAX_CPUS = 4`. -/
def bootState : SmpState :=
  { cpus := [⟨0, 0, 0, []⟩, ⟨0, 0, 0, []⟩, ⟨0, 0, 0, []⟩, ⟨0, 0, 0, []⟩],
    smp_numcores := 0, bspid := 0, bspdone := 0, smp_aps_started := 0,
    smp_aps_running := 0, smcc_psci_call := none }

/-- What is left before the wait loop must end, when poll `k` is made: each
possible further increase of the recorded value is worth a whole budget, and
the polls left of the current budget are added. -/
def pollsLeft (obs : Observed) (k : Nat) : Nat :=
  (2 ^ 64 - 1 - recorded obs k) * 20000 + (20000 - counterAt obs k)

/-! ## The earlier bring-up path (`plat/kvm/arm/setup.c`) -/

/-- `psci_cpu_on` of setup.c (setup.c:65-70): the call it issues. -/
def Setup.psci_cpu_on (cpu entry : Nat) : PsciCall :=
  { conduit := .hvc, fnid := PSCI_FNID_CPU_ON, arg0 := cpu, arg1 := entry, arg2 := cpu }

end Unikraft

/-! ## Properties -/

namespace Unikraft

/-- Replacing the entry of caller `t` moves one unit of the count from the
old standing to the new one. -/
theorem count_set_caller (l : List Caller) (t : Nat) (old new x : Caller)
    (h : l[t]? = some old) :
    (l.set t new).count x + (if old = x then 1 else 0)
      = l.count x + (if new = x then 1 else 0) := by
  induction l generalizing t with
  | nil => simp at h
  | cons a l ih =>
    cases t with
    | zero =>
      simp only [List.getElem?_cons_zero, Option.some.injEq] at h
      subst h
      simp only [List.set_cons_zero, List.count_cons, beq_iff_eq]
      omega
    | succ t =>
      simp only [List.getElem?_cons_succ] at h
      have := ih t h
      simp only [List.set_cons_succ, List.count_cons]
      omega

/-- A freshly initialised lock with idle callers satisfies the invariant. -/
theorem lockInv_init (wr_mask n : Nat) (mem l : uk_rwlock) (flags : Nat)
    (h : uk_rwlock_init_config wr_mask mem flags = .leave l) :
    LockInv { lock := l, callers := List.replicate n .idle } := by
  unfold uk_rwlock_init_config at h
  simp only at h
  split at h
  · cases h
  · cases h
    left
    simp [writers, readers, List.count_replicate]

/-- Every atomic step keeps the invariant. -/
theorem lockInv_step (s s1 : Sys) (t : Nat) (op : Op)
    (hinv : LockInv s) (h : step s t op = some s1) : LockInv s1 := by
  unfold step at h
  unfold LockInv writers readers at *
  split at h
  all_goals first
    | (cases h; done)
    | skip
  all_goals rename_i hc
  all_goals
    have r1 := count_set_caller s.callers t _ .idle .reader hc
    have r2 := count_set_caller s.callers t _ .rlockWait .reader hc
    have r3 := count_set_caller s.callers t _ .reader .reader hc
    have r4 := count_set_caller s.callers t _ .wlockWait .reader hc
    have r5 := count_set_caller s.callers t _ .writer .reader hc
    have r6 := count_set_caller s.callers t _ .upgradeWait .reader hc
    have w1 := count_set_caller s.callers t _ .idle .writer hc
    have w2 := count_set_caller s.callers t _ .rlockWait .writer hc
    have w3 := count_set_caller s.callers t _ .reader .writer hc
    have w4 := count_set_caller s.callers t _ .wlockWait .writer hc
    have w5 := count_set_caller s.callers t _ .writer .writer hc
    have w6 := count_set_caller s.callers t _ .upgradeWait .writer hc
    simp only [reduceCtorEq, if_true, if_false, ite_true, ite_false, Nat.add_zero] at r1 r2 r3 r4 r5 r6 w1 w2 w3 w4 w5 w6
    simp only [rlock_poll, wlock_poll, runlock_section, wunlock_section,
      upgrade_enter, upgrade_poll, downgrade_section, rlock_register, wlock_register] at h
  all_goals first
    | (cases h
       simp only
       omega)
    | (split_ifs at h <;> simp only [finish, reduceCtorEq] at h <;> cases h <;>
        simp only [and_true] <;> omega)

/-- Every reachable state satisfies the invariant. -/
theorem lockInv_reachable (wr_mask n : Nat) (s : Sys) (h : Reachable wr_mask n s) :
    LockInv s := by
  induction h with
  | init mem l flags h => exact lockInv_init wr_mask n mem l flags h
  | next s s1 t op _ h ih => exact lockInv_step s s1 t op ih h

/-- C1. Reader/writer mutual exclusion: in every state reachable from
`uk_rwlock_init_config` by atomic steps of callers that obey lock discipline,
`nactive = -1` holds exactly when one caller holds the lock as writer, in that
case no caller holds it as reader, and never do two callers hold it as
writer. -/
theorem rwlock_mutual_exclusion (wr_mask n : Nat) (s : Sys)
    (h : Reachable wr_mask n s) :
    (s.lock.nactive = -1 ↔ writers s = 1) ∧
    (s.lock.nactive = -1 → readers s = 0) ∧
    writers s ≤ 1 := by
  have hinv := lockInv_reachable wr_mask n s h
  unfold LockInv at hinv
  omega

/-- C1 at a concrete history: of two callers, the first asks for the write
lock and gets it. -/
theorem rwlock_mutual_exclusion_witness :
    Reachable 2 2
      { lock := { nactive := -1, npending_reads := 0, npending_writes := 0, config_flags := 0 },
        callers := [.writer, .idle] } ∧
    (((-1 : Int) = -1 ↔
        writers { lock := { nactive := -1, npending_reads := 0, npending_writes := 0,
                            config_flags := 0 },
                  callers := [.writer, .idle] } = 1) ∧
     ((-1 : Int) = -1 →
        readers { lock := { nactive := -1, npending_reads := 0, npending_writes := 0,
                            config_flags := 0 },
                  callers := [.writer, .idle] } = 0) ∧
     writers { lock := { nactive := -1, npending_reads := 0, npending_writes := 0,
                         config_flags := 0 },
               callers := [.writer, .idle] } ≤ 1) :=
  have hr : Reachable 2 2
      { lock := { nactive := -1, npending_reads := 0, npending_writes := 0, config_flags := 0 },
        callers := [.writer, .idle] } :=
    Reachable.next _ _ 0 .poll
      (Reachable.next _
        { lock := { nactive := 0, npending_reads := 0, npending_writes := 1, config_flags := 0 },
          callers := [.wlockWait, .idle] } 0 .wlock
        (Reachable.init
          { nactive := 7, npending_reads := 7, npending_writes := 7, config_flags := 7 }
          { nactive := 0, npending_reads := 0, npending_writes := 0, config_flags := 0 }
          0 (by decide))
        (by decide))
      (by decide)
  ⟨hr, rwlock_mutual_exclusion 2 2 _ hr⟩

/-- One `rlock` on a lock that no writer holds returns at the first pass of
the loop, with one more active reader and the pending count restored. -/
theorem rlock_returns (fuel : Nat) (hf : 0 < fuel) (l : uk_rwlock) (h : 0 ≤ l.nactive) :
    (uk_rwlock_rlock fuel l).out =
      .returned { l with nactive := l.nactive + 1,
                         npending_reads := l.npending_reads + 1 - 1 } := by
  obtain ⟨f, rfl⟩ : ∃ f, fuel = f + 1 := ⟨fuel - 1, by omega⟩
  simp [uk_rwlock_rlock, spin, rlock_poll, rlock_register, h]

/-- One `runlock` on a lock with an active reader returns with one reader
less. -/
theorem runlock_returns (l : uk_rwlock) (h : 0 < l.nactive) :
    (uk_rwlock_runlock l).out = .returned { l with nactive := l.nactive - 1 } := by
  simp [uk_rwlock_runlock, single, runlock_section, h]

/-- A matched read-only history run from a lock with `held` active readers
and no writer. -/
theorem callSeq_matched (fuel : Nat) (hf : 0 < fuel) (cs : List RdCall) :
    ∀ (l : uk_rwlock) (held : Nat), l.nactive = held → l.npending_reads = 0 →
      (∀ k, (cs.take k).count .runlock ≤ held + (cs.take k).count .rlock) →
      ∃ l1, callSeq fuel l cs = some l1 ∧
        l1.nactive = (held : Int) + cs.count .rlock - cs.count .runlock ∧
        l1.npending_reads = 0 ∧ l1.npending_writes = l.npending_writes ∧
        l1.config_flags = l.config_flags := by
  induction cs with
  | nil => intro l held h1 h2 _; exact ⟨l, rfl, by simp [h1], h2, rfl, rfl⟩
  | cons c cs ih =>
    intro l held h1 h2 hm
    cases c with
    | rlock =>
      have hret := rlock_returns fuel hf l (by omega)
      obtain ⟨l1, e1, e2, e3, e4, e5⟩ := ih
        { l with nactive := l.nactive + 1, npending_reads := l.npending_reads + 1 - 1 }
        (held + 1) (by simp [h1]) (by simp [h2]) (by
          intro k
          have := hm (k + 1)
          simp only [List.take_succ_cons, List.count_cons, beq_self_eq_true, if_true] at this
          simp at this
          omega)
      refine ⟨l1, ?_, ?_, e3, e4, e5⟩
      · simp only [callSeq, rdCall, hret]
        exact e1
      · rw [e2]
        simp only [List.count_cons, beq_self_eq_true, if_true]
        simp
        omega
    | runlock =>
      have h0 := hm 1
      simp at h0
      have hret := runlock_returns l (by omega)
      obtain ⟨l1, e1, e2, e3, e4, e5⟩ := ih
        { l with nactive := l.nactive - 1 }
        (held - 1) (by simp [h1]; omega) (by simp [h2]) (by
          intro k
          have := hm (k + 1)
          simp only [List.take_succ_cons, List.count_cons, beq_self_eq_true, if_true] at this
          simp at this
          omega)
      refine ⟨l1, ?_, ?_, e3, e4, e5⟩
      · simp only [callSeq, rdCall, hret]
        exact e1
      · rw [e2]
        simp only [List.count_cons, beq_self_eq_true, if_true]
        simp
        omega

/-- C2. On a freshly initialised lock, after each call of a history of
`uk_rwlock_rlock` / `uk_rwlock_runlock` calls in which every `runlock` is
matched by an earlier `rlock` (and no write request occurs), every call so
far has returned, `nactive` is non-negative and equals the number of `rlock`
calls minus the number of `runlock` calls, and `npending_reads` is `0`. -/
theorem rlock_runlock_counts (wr_mask flags : Nat) (mem l0 : uk_rwlock)
    (hinit : uk_rwlock_init_config wr_mask mem flags = .leave l0)
    (cs : List RdCall) (hm : Matched cs) (fuel : Nat) (hf : 0 < fuel) (k : Nat) :
    ∃ l, callSeq fuel l0 (cs.take k) = some l ∧
      0 ≤ l.nactive ∧
      l.nactive = ((cs.take k).count .rlock : Int) - (cs.take k).count .runlock ∧
      l.npending_reads = 0 := by
  have hl0 : l0 = { nactive := 0, npending_reads := 0, npending_writes := 0,
                    config_flags := flags } := by
    unfold uk_rwlock_init_config at hinit
    simp only at hinit
    split at hinit
    · cases hinit
    · cases hinit; rfl
  have hmk : ∀ j, ((cs.take k).take j).count .runlock ≤ 0 + ((cs.take k).take j).count .rlock := by
    intro j
    rw [List.take_take]
    simpa using hm (min j k)
  obtain ⟨l1, e1, e2, e3, _, _⟩ :=
    callSeq_matched fuel hf (cs.take k) l0 0 (by simp [hl0]) (by simp [hl0]) hmk
  have hle := hm k
  refine ⟨l1, e1, ?_, ?_, e3⟩
  · rw [e2]; push_cast; omega
  · rw [e2]; push_cast; omega

/-- C2 at a concrete history: two read locks taken, one released, seen
after the third call. -/
theorem rlock_runlock_counts_witness :
    uk_rwlock_init_config 2
        { nactive := 5, npending_reads := 5, npending_writes := 5, config_flags := 5 } 0
      = .leave { nactive := 0, npending_reads := 0, npending_writes := 0, config_flags := 0 } ∧
    Matched [.rlock, .rlock, .runlock] ∧
    0 < 1 ∧
    ∃ l, callSeq 1 { nactive := 0, npending_reads := 0, npending_writes := 0, config_flags := 0 }
          ([RdCall.rlock, RdCall.rlock, RdCall.runlock].take 3) = some l ∧
      0 ≤ l.nactive ∧
      l.nactive = ((([RdCall.rlock, RdCall.rlock, RdCall.runlock].take 3).count .rlock : Nat) : Int)
        - (([RdCall.rlock, RdCall.rlock, RdCall.runlock].take 3).count .runlock : Nat) ∧
      l.npending_reads = 0 :=
  have hm : Matched [.rlock, .rlock, .runlock] := by
    intro k
    match k with
    | 0 => decide
    | 1 => decide
    | 2 => decide
    | k + 3 => simp
  ⟨by decide, hm, by decide,
    rlock_runlock_counts 2 0
      { nactive := 5, npending_reads := 5, npending_writes := 5, config_flags := 5 }
      { nactive := 0, npending_reads := 0, npending_writes := 0, config_flags := 0 }
      (by decide) [.rlock, .rlock, .runlock] hm 1 (by decide) 3⟩

/-- C3. Upgrade by the sole active reader is one critical section: when
`nactive = 1`, the first section of `uk_rwlock_upgrade` ends the call, the
only lock state the call publishes has `nactive = -1` (none with
`nactive = 0`), and both pending counters are the ones it started with. This
holds whatever the polling bound, the loop is never entered; among other
callers it is a single atomic step that makes the reader the writer. -/
theorem upgrade_sole_reader_atomic (fuel : Nat) (l : uk_rwlock) (h : l.nactive = 1) :
    upgrade_enter l = .leave { l with nactive := -1 } ∧
    uk_rwlock_upgrade fuel l
      = ⟨[{ l with nactive := -1 }], .returned { l with nactive := -1 }⟩ ∧
    (∀ v ∈ (uk_rwlock_upgrade fuel l).visible,
      v.nactive = -1 ∧ v.nactive ≠ 0 ∧
      v.npending_reads = l.npending_reads ∧ v.npending_writes = l.npending_writes) ∧
    (∀ (callers : List Caller) (t : Nat), callers[t]? = some .reader →
      step { lock := l, callers := callers } t .upgrade
        = some { lock := { l with nactive := -1 }, callers := callers.set t .writer }) := by
  have h1 : upgrade_enter l = .leave { l with nactive := -1 } := by
    simp [upgrade_enter, h]
  have h2 : uk_rwlock_upgrade fuel l
      = ⟨[{ l with nactive := -1 }], .returned { l with nactive := -1 }⟩ := by
    simp [uk_rwlock_upgrade, h1]
  refine ⟨h1, h2, ?_, ?_⟩
  · intro v hv
    rw [h2] at hv
    simp only [List.mem_singleton] at hv
    subst hv
    simp
  · intro callers t ht
    simp only [step, ht, h1, finish]

/-- C3 at a concrete lock: one reader, two pending readers, three pending
writers, and no polling allowed at all. -/
theorem upgrade_sole_reader_atomic_witness :
    (1 : Int) = 1 ∧
    upgrade_enter { nactive := 1, npending_reads := 2, npending_writes := 3, config_flags := 0 }
      = .leave { nactive := -1, npending_reads := 2, npending_writes := 3, config_flags := 0 } ∧
    uk_rwlock_upgrade 0
        { nactive := 1, npending_reads := 2, npending_writes := 3, config_flags := 0 }
      = ⟨[{ nactive := -1, npending_reads := 2, npending_writes := 3, config_flags := 0 }],
         .returned { nactive := -1, npending_reads := 2, npending_writes := 3,
                     config_flags := 0 }⟩ ∧
    (∀ v ∈ (uk_rwlock_upgrade 0
        { nactive := 1, npending_reads := 2, npending_writes := 3,
          config_flags := 0 }).visible,
      v.nactive = -1 ∧ v.nactive ≠ 0 ∧ v.npending_reads = 2 ∧ v.npending_writes = 3) ∧
    (∀ (callers : List Caller) (t : Nat), callers[t]? = some .reader →
      step { lock := { nactive := 1, npending_reads := 2, npending_writes := 3,
                       config_flags := 0 },
             callers := callers } t .upgrade
        = some { lock := { nactive := -1, npending_reads := 2, npending_writes := 3,
                           config_flags := 0 },
                 callers := callers.set t .writer }) :=
  ⟨rfl, upgrade_sole_reader_atomic 0
    { nactive := 1, npending_reads := 2, npending_writes := 3, config_flags := 0 } rfl⟩

/-- C4. Downgrade by the writer: when `nactive = -1`, `uk_rwlock_downgrade`
is one critical section without a loop (the model takes no polling bound), it
returns, and the lock it leaves has `nactive = 1` and both pending counters
and the configuration unchanged. -/
theorem downgrade_leaves_one_reader (l : uk_rwlock) (h : l.nactive = -1) :
    downgrade_section l = .leave { l with nactive := 1 } ∧
    uk_rwlock_downgrade l = ⟨[{ l with nactive := 1 }], .returned { l with nactive := 1 }⟩ ∧
    ∃ l1, (uk_rwlock_downgrade l).out = .returned l1 ∧ l1.nactive = 1 ∧
      l1.npending_reads = l.npending_reads ∧ l1.npending_writes = l.npending_writes := by
  have h1 : downgrade_section l = .leave { l with nactive := 1 } := by
    simp [downgrade_section, h]
  have h2 : uk_rwlock_downgrade l
      = ⟨[{ l with nactive := 1 }], .returned { l with nactive := 1 }⟩ := by
    simp [uk_rwlock_downgrade, single, h1]
  refine ⟨h1, h2, { l with nactive := 1 }, ?_, rfl, rfl, rfl⟩
  rw [h2]

/-- C4 at a concrete lock: a writer with four readers and one writer
pending. -/
theorem downgrade_leaves_one_reader_witness :
    (-1 : Int) = -1 ∧
    downgrade_section { nactive := -1, npending_reads := 4, npending_writes := 1,
                        config_flags := 0 }
      = .leave { nactive := 1, npending_reads := 4, npending_writes := 1, config_flags := 0 } ∧
    uk_rwlock_downgrade { nactive := -1, npending_reads := 4, npending_writes := 1,
                          config_flags := 0 }
      = ⟨[{ nactive := 1, npending_reads := 4, npending_writes := 1, config_flags := 0 }],
         .returned { nactive := 1, npending_reads := 4, npending_writes := 1,
                     config_flags := 0 }⟩ ∧
    ∃ l1, (uk_rwlock_downgrade { nactive := -1, npending_reads := 4, npending_writes := 1,
                                 config_flags := 0 }).out = .returned l1 ∧ l1.nactive = 1 ∧
      l1.npending_reads = 4 ∧ l1.npending_writes = 1 :=
  ⟨rfl, downgrade_leaves_one_reader
    { nactive := -1, npending_reads := 4, npending_writes := 1, config_flags := 0 } rfl⟩

/-- One pass of the wait loop, with the local bindings written out. -/
theorem aps_poll_succ (obs : Observed) (fuel i old k : Nat) :
    aps_poll obs (fuel + 1) i old k =
      if ¬ (i < 20000) then some (-1, k)
      else if (obs k).1 % 2 ^ 64 = (obs k).2 % 2 ^ 64 then some (0, k + 1)
      else if (obs k).1 % 2 ^ 64 > old then aps_poll obs fuel 1 ((obs k).1 % 2 ^ 64) (k + 1)
      else aps_poll obs fuel (i + 1) old (k + 1) := by
  rfl

/-- The wait loop returns `0` or `-1` and nothing else. -/
theorem aps_poll_value (obs : Observed) (fuel : Nat) :
    ∀ (i old k : Nat) (v : Int) (n : Nat),
      aps_poll obs fuel i old k = some (v, n) → v = 0 ∨ v = -1 := by
  induction fuel with
  | zero => intro i old k v n h; simp [aps_poll] at h
  | succ fuel ih =>
    intro i old k v n h
    rw [aps_poll_succ] at h
    split_ifs at h
    all_goals first
      | exact ih _ _ _ _ _ h
      | (simp only [Option.some.injEq, Prod.mk.injEq] at h
         obtain ⟨h1, _⟩ := h
         omega)

/-- C5. `ukplat_lcpu_start` does not report the number of started cores:
its return value is `0` or `-1` on every input, and on the two-core machine a
request for core 1 whose power-on call returns `PSCI_RET_SUCCESS` and whose
core is seen running at the first poll returns `0`, not `1`. -/
theorem lcpu_start_returns_status_not_count :
    (∀ (p : Platform) (fw : Firmware) (obs : Observed) (fuel : Nat) (st : SmpState)
        (req : StartRequest) (v : Int) (b : Bringup) (n : Nat),
        ukplat_lcpu_start p fw obs fuel st req = .ret v b n → v = 0 ∨ v = -1) ∧
    ukplat_lcpu_start demoPlatform fwAccept (fun _ => (1, 1)) 1 (demoState (some .hvc))
        { lcpuid := some [1], sp := [0x48000000], entry := [0x40090000], num := 1 }
      = .ret 0
          { st := { cpus := [⟨0, 0, 0, []⟩, ⟨1, 0x40090000, 0x48000000, []⟩,
                             ⟨2 ^ 64 - 1, 0, 0, []⟩, ⟨2 ^ 64 - 1, 0, 0, []⟩],
                    smp_numcores := 2, bspid := 0, bspdone := 1, smp_aps_started := 0,
                    smp_aps_running := 0, smcc_psci_call := some .hvc },
            calls := [(⟨.hvc, PSCI_FNID_CPU_ON, 1, 0x40080000, 0x40200030⟩, PSCI_RET_SUCCESS)] }
          1 := by
  constructor
  · intro p fw obs fuel st req v b n h
    unfold ukplat_lcpu_start at h
    simp only at h
    split at h
    · cases h
    · split_ifs at h
      · cases h; left; rfl
      · split at h
        · cases h
        · rename_i hp
          cases h
          exact aps_poll_value obs fuel 0 0 0 _ _ hp
  · decide

/-- The loop is left with `-1` when the counter has reached 20000. -/
theorem aps_poll_timeout (obs : Observed) (fuel i old k : Nat) (h : ¬ i < 20000) :
    aps_poll obs (fuel + 1) i old k = some (-1, k) := by
  rw [aps_poll_succ, if_pos h]

/-- The loop is left with `0` by a poll that observes `running == started`. -/
theorem aps_poll_all (obs : Observed) (fuel i old k : Nat) (h : i < 20000)
    (ha : SeesAll obs k) : aps_poll obs (fuel + 1) i old k = some (0, k + 1) := by
  unfold SeesAll runningAt startedAt at ha
  rw [aps_poll_succ, if_neg (not_not.mpr h), if_pos ha]

/-- A poll that observes an increase sets the counter to `0`, which the loop
header makes `1`, and records the value read. -/
theorem aps_poll_progress (obs : Observed) (fuel i old k : Nat) (h : i < 20000)
    (ha : ¬ SeesAll obs k) (hp : runningAt obs k > old) :
    aps_poll obs (fuel + 1) i old k = aps_poll obs fuel 1 (runningAt obs k) (k + 1) := by
  unfold SeesAll at ha
  unfold runningAt startedAt at *
  rw [aps_poll_succ, if_neg (not_not.mpr h), if_neg ha, if_pos hp]

/-- Any other poll increments the counter. -/
theorem aps_poll_stall (obs : Observed) (fuel i old k : Nat) (h : i < 20000)
    (ha : ¬ SeesAll obs k) (hp : ¬ runningAt obs k > old) :
    aps_poll obs (fuel + 1) i old k = aps_poll obs fuel (i + 1) old (k + 1) := by
  unfold SeesAll at ha
  unfold runningAt startedAt at *
  rw [aps_poll_succ, if_neg (not_not.mpr h), if_neg ha, if_neg hp]

/-- Counter and recorded value after a poll that observes an increase. -/
theorem after_progress (obs : Observed) (k : Nat) (hp : SeesProgress obs k) :
    counterAt obs (k + 1) = 1 ∧ recorded obs (k + 1) = runningAt obs k := by
  unfold SeesProgress at hp
  constructor
  · rw [counterAt, if_pos hp]
  · rw [recorded, if_pos hp]

/-- Counter and recorded value after a poll that observes no increase. -/
theorem after_stall (obs : Observed) (k : Nat) (hp : ¬ SeesProgress obs k) :
    counterAt obs (k + 1) = counterAt obs k + 1 ∧ recorded obs (k + 1) = recorded obs k := by
  unfold SeesProgress at hp
  constructor
  · rw [counterAt, if_neg hp]
  · rw [recorded, if_neg hp]

/-- One pass that does not end the loop leads to the counter and recorded
value of the next poll. -/
theorem aps_poll_next (obs : Observed) (fuel k : Nat) (h : counterAt obs k < 20000)
    (ha : ¬ SeesAll obs k) :
    aps_poll obs (fuel + 1) (counterAt obs k) (recorded obs k) k
      = aps_poll obs fuel (counterAt obs (k + 1)) (recorded obs (k + 1)) (k + 1) := by
  by_cases hp : SeesProgress obs k
  · rw [(after_progress obs k hp).1, (after_progress obs k hp).2]
    exact aps_poll_progress obs fuel _ _ k h ha hp
  · rw [(after_stall obs k hp).1, (after_stall obs k hp).2]
    exact aps_poll_stall obs fuel _ _ k h ha hp

/-- While no poll ends the loop, `n` passes take it from poll `k` to poll
`k + n` with the counter and the recorded value of that poll. -/
theorem aps_poll_run (obs : Observed) (n : Nat) :
    ∀ k, (∀ m, k ≤ m → m < k + n → counterAt obs m < 20000 ∧ ¬ SeesAll obs m) →
      ∀ fuel, aps_poll obs (n + fuel) (counterAt obs k) (recorded obs k) k
        = aps_poll obs fuel (counterAt obs (k + n)) (recorded obs (k + n)) (k + n) := by
  induction n with
  | zero => intro k _ fuel; simp
  | succ n ih =>
    intro k h fuel
    obtain ⟨h1, h2⟩ := h k (le_refl k) (by omega)
    have hstep := ih (k + 1) (fun m hm1 hm2 => h m (by omega) (by omega)) fuel
    have e : n + 1 + fuel = (n + fuel) + 1 := by omega
    have e2 : k + (n + 1) = k + 1 + n := by omega
    rw [e, e2, ← hstep]
    exact aps_poll_next obs (n + fuel) k h1 h2

/-- The counter never exceeds the number of polls made. -/
theorem counterAt_le (obs : Observed) : ∀ k, counterAt obs k ≤ k := by
  intro k
  induction k with
  | zero => simp [counterAt]
  | succ k ih =>
    unfold counterAt
    split_ifs <;> omega

/-- The counter has reached `c` exactly when `c` polls have been made of
which the last `c - 1` observed no increase. -/
theorem counterAt_ge (obs : Observed) : ∀ k c, 1 ≤ c →
    (c ≤ counterAt obs k ↔ c ≤ k ∧ ∀ m, k - c < m → m < k → ¬ SeesProgress obs m) := by
  intro k
  induction k with
  | zero => intro c hc; simp [counterAt]
  | succ k ih =>
    intro c hc
    by_cases hp : runningAt obs k > recorded obs k
    · have hck : counterAt obs (k + 1) = 1 := by simp [counterAt, hp]
      rw [hck]
      constructor
      · intro h
        have : c = 1 := by omega
        subst this
        exact ⟨by omega, fun m h1 h2 => by omega⟩
      · rintro ⟨h1, h2⟩
        by_contra hc2
        exact h2 k (by omega) (by omega) hp
    · have hck : counterAt obs (k + 1) = counterAt obs k + 1 := by simp [counterAt, hp]
      rw [hck]
      by_cases hc1 : c = 1
      · subst hc1
        exact ⟨fun _ => ⟨by omega, fun m h1 h2 => by omega⟩, fun _ => by omega⟩
      · have := ih (c - 1) (by omega)
        constructor
        · intro h
          obtain ⟨h1, h2⟩ := this.mp (by omega)
          refine ⟨by omega, fun m hm1 hm2 => ?_⟩
          by_cases hmk : m = k
          · subst hmk; exact hp
          · exact h2 m (by omega) (by omega)
        · rintro ⟨h1, h2⟩
          have := this.mpr ⟨by omega, fun m hm1 hm2 => h2 m (by omega) (by omega)⟩
          omega

/-- What a result of the wait loop says about the polls made. -/
theorem aps_poll_result (obs : Observed) (fuel : Nat) :
    ∀ k v n, aps_poll obs fuel (counterAt obs k) (recorded obs k) k = some (v, n) →
      (v = -1 ∧ k ≤ n ∧ (∀ m, k ≤ m → m < n → counterAt obs m < 20000 ∧ ¬ SeesAll obs m) ∧
        20000 ≤ counterAt obs n) ∨
      (v = 0 ∧ k < n ∧ (∀ m, k ≤ m → m < n - 1 → counterAt obs m < 20000 ∧ ¬ SeesAll obs m) ∧
        counterAt obs (n - 1) < 20000 ∧ SeesAll obs (n - 1)) := by
  induction fuel with
  | zero => intro k v n h; simp [aps_poll] at h
  | succ fuel ih =>
    intro k v n h
    by_cases h1 : counterAt obs k < 20000
    · by_cases h2 : SeesAll obs k
      · rw [aps_poll_all obs fuel _ _ k h1 h2] at h
        simp only [Option.some.injEq, Prod.mk.injEq] at h
        obtain ⟨rfl, rfl⟩ := h
        right
        exact ⟨rfl, by omega, fun m hm1 hm2 => by omega, by simpa using h1, by simpa using h2⟩
      · rw [aps_poll_next obs fuel k h1 h2] at h
        rcases ih (k + 1) v n h with ⟨e1, e2, e3, e4⟩ | ⟨e1, e2, e3, e4⟩
        · left
          refine ⟨e1, by omega, fun m hm1 hm2 => ?_, e4⟩
          by_cases hmk : m = k
          · subst hmk; exact ⟨h1, h2⟩
          · exact e3 m (by omega) hm2
        · right
          refine ⟨e1, by omega, fun m hm1 hm2 => ?_, e4⟩
          by_cases hmk : m = k
          · subst hmk; exact ⟨h1, h2⟩
          · exact e3 m (by omega) hm2
    · rw [aps_poll_timeout obs fuel _ _ k h1] at h
      simp only [Option.some.injEq, Prod.mk.injEq] at h
      obtain ⟨rfl, rfl⟩ := h
      left
      exact ⟨rfl, le_refl _, fun m hm1 hm2 => by omega, by omega⟩

/-- The recorded value is at least every value of `running` read before. -/
theorem recorded_ge (obs : Observed) (k : Nat) :
    ∀ m, k < m → runningAt obs k ≤ recorded obs m := by
  intro m
  induction m with
  | zero => intro h; omega
  | succ m ih =>
    intro h
    unfold recorded
    by_cases hk : k = m
    · subst hk
      split_ifs <;> omega
    · have := ih (by omega)
      split_ifs <;> omega

/-- A stalled budget makes the loop return `-1`, at the first poll number
`n` at which the counter has reached 20000. -/
theorem timeout_of_stalled (obs : Observed) (j : Nat)
    (h1 : ∀ m, m < j + 20000 → ¬ SeesAll obs m)
    (h2 : ∀ m, j < m → m < j + 20000 → ¬ SeesProgress obs m) :
    ∃ n, 20000 ≤ n ∧ n ≤ j + 20000 ∧
      ∀ fuel, n < fuel → aps_poll obs fuel 0 0 0 = some (-1, n) := by
  have hex : ∃ k, 20000 ≤ counterAt obs k :=
    ⟨j + 20000, (counterAt_ge obs (j + 20000) 20000 (by omega)).mpr
      ⟨by omega, fun m hm1 hm2 => h2 m (by omega) hm2⟩⟩
  classical
  have hle : Nat.find hex ≤ j + 20000 :=
    Nat.find_min' hex ((counterAt_ge obs (j + 20000) 20000 (by omega)).mpr
      ⟨by omega, fun m hm1 hm2 => h2 m (by omega) hm2⟩)
  have hn := Nat.find_spec hex
  refine ⟨Nat.find hex, ?_, hle, ?_⟩
  · have := counterAt_le obs (Nat.find hex)
    omega
  · intro fuel hf
    obtain ⟨f, rfl⟩ : ∃ f, fuel = Nat.find hex + (f + 1) := ⟨fuel - Nat.find hex - 1, by omega⟩
    have hrun := aps_poll_run obs (Nat.find hex) 0
      (fun m _ hm => ⟨by
        have := Nat.find_min hex (by simpa using hm : m < Nat.find hex)
        omega, h1 m (by omega)⟩) (f + 1)
    simp only [Nat.zero_add] at hrun
    have h0 : counterAt obs 0 = 0 := rfl
    have h00 : recorded obs 0 = 0 := rfl
    rw [h0, h00] at hrun
    rw [hrun]
    exact aps_poll_timeout obs f _ _ _ (by omega)

/-- A return of `-1` means that a budget has stalled. -/
theorem stalled_of_timeout (obs : Observed) (fuel n : Nat)
    (h : aps_poll obs fuel 0 0 0 = some (-1, n)) : StalledAfterFirst obs := by
  have h0 : aps_poll obs fuel (counterAt obs 0) (recorded obs 0) 0 = some (-1, n) := h
  rcases aps_poll_result obs fuel 0 (-1) n h0 with ⟨_, _, e3, e4⟩ | ⟨e1, _⟩
  · obtain ⟨c1, c2⟩ := (counterAt_ge obs n 20000 (by omega)).mp e4
    refine ⟨n - 20000, fun m hm => (e3 m (by omega) (by omega)).2, fun m hm1 hm2 => ?_⟩
    exact c2 m hm1 (by omega)
  · omega

/-- The first poll that observes `running == started` makes the loop return
`0`, unless a budget has stalled before it. -/
theorem success_at_first (obs : Observed) (k : Nat) (ha : SeesAll obs k)
    (hfirst : ∀ m, m < k → ¬ SeesAll obs m)
    (hbudget : ¬ ∃ j, j + 20000 ≤ k ∧ ∀ m, j < m → m < j + 20000 → ¬ SeesProgress obs m)
    (fuel : Nat) (hf : k < fuel) : aps_poll obs fuel 0 0 0 = some (0, k + 1) := by
  have hc : ∀ m, m ≤ k → counterAt obs m < 20000 := by
    intro m hm
    by_contra hge
    obtain ⟨c1, c2⟩ := (counterAt_ge obs m 20000 (by omega)).mp (by omega)
    exact hbudget ⟨m - 20000, by omega, fun m1 hm1 hm2 => c2 m1 hm1 (by omega)⟩
  obtain ⟨f, rfl⟩ : ∃ f, fuel = k + (f + 1) := ⟨fuel - k - 1, by omega⟩
  have hrun := aps_poll_run obs k 0
    (fun m _ hm => ⟨hc m (by omega), hfirst m (by omega)⟩) (f + 1)
  simp only [Nat.zero_add] at hrun
  have h0 : counterAt obs 0 = 0 := rfl
  have h00 : recorded obs 0 = 0 := rfl
  rw [h0, h00] at hrun
  rw [hrun]
  exact aps_poll_all obs f _ _ k (hc k (le_refl k)) ha

/-- C6, as the code has it. For every sequence of observed values: the wait
loop returns `0` at the first poll that observes `running == started`,
provided no budget has stalled before that poll; and it returns `-1` exactly
when a budget stalls, that is when 20000 consecutive polls elapse with
`running != started` of which none after the first observes an increase of
`running` (a poll that observes an increase is itself the first of the 20000).
The return of `-1` then happens once the bound on the passes exceeds the
number `n` of polls made. -/
theorem aps_poll_stall_detector (obs : Observed) :
    (∀ k, SeesAll obs k → (∀ m, m < k → ¬ SeesAll obs m) →
      (¬ ∃ j, j + 20000 ≤ k ∧ ∀ m, j < m → m < j + 20000 → ¬ SeesProgress obs m) →
      ∀ fuel, k < fuel → aps_poll obs fuel 0 0 0 = some (0, k + 1)) ∧
    ((∃ fuel n, aps_poll obs fuel 0 0 0 = some (-1, n)) ↔ StalledAfterFirst obs) ∧
    (StalledAfterFirst obs →
      ∃ n, 20000 ≤ n ∧ ∀ fuel, n < fuel → aps_poll obs fuel 0 0 0 = some (-1, n)) := by
  refine ⟨fun k ha hfirst hbudget fuel hf => success_at_first obs k ha hfirst hbudget fuel hf,
    ⟨?_, ?_⟩, ?_⟩
  · rintro ⟨fuel, n, h⟩
    exact stalled_of_timeout obs fuel n h
  · rintro ⟨j, h1, h2⟩
    obtain ⟨n, _, _, hn⟩ := timeout_of_stalled obs j h1 h2
    exact ⟨n + 1, n, hn (n + 1) (by omega)⟩
  · rintro ⟨j, h1, h2⟩
    obtain ⟨n, hn1, _, hn⟩ := timeout_of_stalled obs j h1 h2
    exact ⟨n, hn1, hn⟩

/-- C6 on `lateCore`: poll 0 observes an increase (`1 > 0`), polls 1 to
19999 observe `running = 1`, `started = 2`, and poll 20000 would observe
`running == started`. The loop returns `-1` after 20000 polls, although no
20000 consecutive polls without an observed increase have elapsed: poll 0
observed one, and only 19999 polls follow it. -/
theorem lateCore_timeout_one_poll_short :
    aps_poll lateCore 20001 0 0 0 = some (-1, 20000) ∧
    SeesProgress lateCore 0 ∧
    SeesAll lateCore 20000 ∧
    ¬ StalledFullBudget lateCore := by
  have hrun : ∀ m, m < 20000 → runningAt lateCore m = 1 ∧ startedAt lateCore m = 2 := by
    intro m hm
    simp [runningAt, startedAt, lateCore, hm]
  have hp0 : SeesProgress lateCore 0 := by
    unfold SeesProgress
    rw [(hrun 0 (by omega)).1]
    decide
  have ha : SeesAll lateCore 20000 := by
    simp [SeesAll, runningAt, startedAt, lateCore]
  have hstall : ¬ StalledFullBudget lateCore := by
    rintro ⟨j, h1, h2⟩
    by_cases hj : j = 0
    · subst hj
      exact h2 0 (le_refl 0) (by omega) hp0
    · exact h1 20000 (by omega) ha
  refine ⟨?_, hp0, ha, hstall⟩
  obtain ⟨n, hn1, hn2, hn⟩ := timeout_of_stalled lateCore 0
    (fun m hm => by
      unfold SeesAll
      rw [(hrun m (by omega)).1, (hrun m (by omega)).2]
      decide)
    (fun m hm1 hm2 => by
      unfold SeesProgress
      have := recorded_ge lateCore 0 m hm1
      rw [(hrun 0 (by omega)).1] at this
      rw [(hrun m hm2).1]
      omega)
  have : n = 20000 := by omega
  subst this
  exact hn 20001 (by omega)

/-- C6 at a concrete sequence: the only started core is seen running at the
first poll, and the loop returns `0` there. -/
theorem aps_poll_stall_detector_witness :
    aps_poll (fun _ => (1, 1)) 1 0 0 0 = some (0, 1) :=
  (aps_poll_stall_detector (fun _ => (1, 1))).1 0 (by simp [SeesAll, runningAt, startedAt])
    (fun m hm => by omega) (by rintro ⟨j, hj, _⟩; omega) 1 (by omega)

/-- A pass of the power-on loop for the boot core or for an id in excess of
the count changes nothing. -/
theorem iter_skip (p : Platform) (fw : Firmware) (ids sp entry : List Nat) (num : Int)
    (b : Bringup) (i id : Nat) (d : arm64_cpu)
    (hid : ids[i]? = some id) (hd : b.st.cpus[id]? = some d)
    (hskip : d.id = b.st.bspid ∨ id > b.st.smp_numcores) :
    lcpu_start_iter p fw ⟨some ids, sp, entry, num⟩ b i = some b := by
  simp only [lcpu_start_iter, hid, hd]
  by_cases h1 : d.id = b.st.bspid
  · simp [h1]
  · have h2 : id > b.st.smp_numcores := by tauto
    simp [h1, h2]

/-- A pass of the power-on loop for any other id records entry and stack,
empties the work list and issues one power-on call. -/
theorem iter_start (p : Platform) (fw : Firmware) (ids sp entry : List Nat) (num : Int)
    (b : Bringup) (i id e s : Nat) (d : arm64_cpu)
    (hid : ids[i]? = some id) (hd : b.st.cpus[id]? = some d)
    (h1 : d.id ≠ b.st.bspid) (h2 : ¬ id > b.st.smp_numcores)
    (he : entry[i]? = some e) (hs : sp[i]? = some s) :
    lcpu_start_iter p fw ⟨some ids, sp, entry, num⟩ b i =
      some { st := { b.st with
                     cpus := b.st.cpus.set id ({ d with entry := e, stackp := s, fnlist := [] }) },
             calls := b.calls ++
               [(⟨.hvc, PSCI_FNID_CPU_ON, d.id, p.lcpu_start_paddr, p.cpu_addr id⟩,
                 fw (b.calls.map Prod.fst)
                   ⟨.hvc, PSCI_FNID_CPU_ON, d.id, p.lcpu_start_paddr, p.cpu_addr id⟩)] } := by
  have hlt : id < b.st.cpus.length := by
    rcases List.getElem?_eq_some_iff.mp hd with ⟨h, _⟩
    exact h
  simp only [lcpu_start_iter, hid, hd, he, hs, h1, h2, if_false, psci_cpu_on,
    List.getElem?_set_self hlt]

/-- Whether an id is to be started depends only on what `SameCores` keeps. -/
theorem toStart_eq (st : SmpState) (b : Bringup) (hs : SameCores st b) (id : Nat)
    (d : arm64_cpu) (hd : b.st.cpus[id]? = some d) :
    toStart st id = (!(d.id == b.st.bspid) && !(decide (id > b.st.smp_numcores))) ∧
    (powerOn p st id).arg0 = d.id := by
  obtain ⟨s1, s2, s3⟩ := hs
  have := s3 id
  rw [hd] at this
  simp only [Option.map_some'] at this
  cases h0 : st.cpus[id]? with
  | none => rw [h0] at this; simp at this
  | some d0 =>
    rw [h0] at this
    simp only [Option.map_some', Option.some.injEq] at this
    simp [toStart, powerOn, h0, this, s1, s2]

/-- The power-on loop from index `i` on. -/
theorem lcpu_start_loop_spec (p : Platform) (fw : Firmware) (st : SmpState)
    (ids sp entry : List Nat) (num : Int)
    (hsp : sp.length = ids.length) (hen : entry.length = ids.length)
    (hvalid : ∀ id ∈ ids, id < st.cpus.length) :
    ∀ rem i b, i + rem = ids.length → SameCores st b →
      ∃ b1, lcpu_start_loop p fw ⟨some ids, sp, entry, num⟩ rem i b = some b1 ∧
        SameCores st b1 ∧
        b1.calls.map Prod.fst
          = b.calls.map Prod.fst ++ ((ids.drop i).filter (toStart st)).map (powerOn p st) ∧
        (∀ j, (∀ i1, i ≤ i1 → ids[i1]? = some j → toStart st j = false) →
          b1.st.cpus[j]? = b.st.cpus[j]?) ∧
        (∀ i1 id e s d, i ≤ i1 → ids[i1]? = some id → entry[i1]? = some e →
          sp[i1]? = some s → b.st.cpus[id]? = some d → toStart st id = true →
          (∀ i2, i1 < i2 → ids[i2]? ≠ some id) →
          b1.st.cpus[id]? = some { d with entry := e, stackp := s, fnlist := [] }) := by
  intro rem
  induction rem with
  | zero =>
    intro i b hi hs
    refine ⟨b, rfl, hs, ?_, fun _ _ => rfl, ?_⟩
    · rw [List.drop_of_length_le (by omega)]
      simp
    · intro i1 id e s d h1 h2
      have : ids[i1]? = none := List.getElem?_eq_none (by omega)
      rw [this] at h2
      cases h2
  | succ rem ih =>
    intro i b hi hs
    have hlt : i < ids.length := by omega
    have hid : ids[i]? = some ids[i] := List.getElem?_eq_getElem hlt
    have hidlt : ids[i] < st.cpus.length := hvalid _ (List.getElem_mem hlt)
    have hdrop : ids.drop i = ids[i] :: ids.drop (i + 1) := List.drop_eq_getElem_cons hlt
    obtain ⟨d, hd⟩ : ∃ d, b.st.cpus[ids[i]]? = some d := by
      have h3 := hs.2.2 ids[i]
      rw [List.getElem?_eq_getElem hidlt] at h3
      cases h0 : b.st.cpus[ids[i]]? with
      | none => rw [h0] at h3; simp at h3
      | some d => exact ⟨d, rfl⟩
    have hdlt : ids[i] < b.st.cpus.length := by
      rcases List.getElem?_eq_some_iff.mp hd with ⟨h, _⟩
      exact h
    obtain ⟨ht, harg⟩ := toStart_eq (p := p) st b hs ids[i] d hd
    by_cases hstart : toStart st ids[i] = true
    · rw [hstart] at ht
      have h1 : d.id ≠ b.st.bspid := by
        intro h; simp [h] at ht
      have h2 : ¬ ids[i] > b.st.smp_numcores := by
        intro h; simp [h] at ht
      have he : entry[i]? = some entry[i] := List.getElem?_eq_getElem (by omega)
      have hsi : sp[i]? = some sp[i] := List.getElem?_eq_getElem (by omega)
      have hiter := iter_start p fw ids sp entry num b i ids[i] entry[i] sp[i] d hid hd h1 h2 he hsi
      have hcall : (⟨.hvc, PSCI_FNID_CPU_ON, d.id, p.lcpu_start_paddr, p.cpu_addr ids[i]⟩ : PsciCall)
          = powerOn p st ids[i] := by
        rw [← harg]; rfl
      rw [hcall] at hiter
      have hs1 : SameCores st
          { st := { b.st with
                    cpus := b.st.cpus.set ids[i]
                      ({ d with entry := entry[i], stackp := sp[i], fnlist := [] }) },
            calls := b.calls ++ [(powerOn p st ids[i],
              fw (b.calls.map Prod.fst) (powerOn p st ids[i]))] } := by
        refine ⟨hs.1, hs.2.1, fun j => ?_⟩
        rw [← hs.2.2 j]
        by_cases hj : ids[i] = j
        · subst hj
          simp only [List.getElem?_set_self hdlt, hd, Option.map_some']
        · simp only [List.getElem?_set_ne hj]
      obtain ⟨b1, e1, e2, e3, e4, e5⟩ := ih (i + 1) _ (by omega) hs1
      refine ⟨b1, ?_, e2, ?_, ?_, ?_⟩
      · simp only [lcpu_start_loop, hiter]
        exact e1
      · rw [e3, hdrop, List.filter_cons, if_pos hstart]
        simp
      · intro j hj
        have hne : ids[i] ≠ j := by
          intro h
          have := hj i (le_refl i) (by rw [hid, h])
          rw [← h, hstart] at this
          cases this
        rw [e4 j (fun i1 hi1 h => hj i1 (by omega) h)]
        simp only [List.getElem?_set_ne hne]
      · intro i1 id e s d1 hi1 hid1 he1 hs1i hd1 hst1 hlast
        by_cases hi : i1 = i
        · subst hi
          rw [hid] at hid1
          rw [he] at he1
          rw [hsi] at hs1i
          cases hid1; cases he1; cases hs1i
          rw [hd] at hd1
          cases hd1
          rw [e4 ids[i1] (fun i2 hi2 h => absurd h (hlast i2 (by omega)))]
          simp only [List.getElem?_set_self hdlt]
        · by_cases hidid : ids[i] = id
          · have h5 := e5 i1 id e s ({ d with entry := entry[i], stackp := sp[i], fnlist := [] })
              (by omega) hid1 he1 hs1i
              (by rw [← hidid]; simp only [List.getElem?_set_self hdlt]) hst1 hlast
            rw [h5]
            rw [← hidid, hd] at hd1
            cases hd1
            rfl
          · exact e5 i1 id e s d1 (by omega) hid1 he1 hs1i
              (by simp only [List.getElem?_set_ne hidid]; exact hd1) hst1 hlast
    · have hfalse : toStart st ids[i] = false := by
        cases h : toStart st ids[i] with
        | true => exact absurd h hstart
        | false => rfl
      rw [hfalse] at ht
      have hskip : d.id = b.st.bspid ∨ ids[i] > b.st.smp_numcores := by
        by_contra hcon
        push_neg at hcon
        obtain ⟨c1, c2⟩ := hcon
        have c3 : ¬ ids[i] > b.st.smp_numcores := by omega
        simp [c1, c3] at ht
      have hiter := iter_skip p fw ids sp entry num b i ids[i] d hid hd hskip
      obtain ⟨b1, e1, e2, e3, e4, e5⟩ := ih (i + 1) b (by omega) hs
      refine ⟨b1, ?_, e2, ?_, ?_, ?_⟩
      · simp only [lcpu_start_loop, hiter]
        exact e1
      · rw [e3, hdrop, List.filter_cons, if_neg hstart]
      · intro j hj
        exact e4 j (fun i1 hi1 h => hj i1 (by omega) h)
      · intro i1 id e s d1 hi1 hid1 he1 hs1i hd1 hst1 hlast
        have hi : i1 ≠ i := by
          intro h
          subst h
          rw [hid] at hid1
          cases hid1
          exact hstart hst1
        exact e5 i1 id e s d1 (by omega) hid1 he1 hs1i hd1 hst1 hlast

/-- C7. For every request `(ids, stacks, entries)` of equal length whose ids
index the descriptor array, `ukplat_lcpu_start` issues its firmware calls in
request order, exactly one for each requested id that is neither the boot
core nor in excess of the discovered count, whatever the firmware returns:
function id `PSCI_FNID_CPU_ON`, the descriptor's hardware id as target, the
physical address of the trampoline as entry, the descriptor's address as
context word. The descriptor of such an id holds the entry and stack of its
(last) request; a descriptor requested only as boot core or in excess of the
count, or not requested, is unchanged, and no hardware id changes. -/
theorem lcpu_start_power_on (p : Platform) (fw : Firmware) (obs : Observed) (fuel : Nat)
    (st : SmpState) (ids sp entry : List Nat)
    (hsp : sp.length = ids.length) (hen : entry.length = ids.length)
    (hvalid : ∀ id ∈ ids, id < st.cpus.length) :
    ∃ b, (ukplat_lcpu_start p fw obs fuel st ⟨some ids, sp, entry, ids.length⟩).bringup = some b ∧
      b.calls.map Prod.fst = (ids.filter (toStart st)).map (powerOn p st) ∧
      (∀ j : Nat, (∀ i : Nat, ids[i]? = some j → toStart st j = false) → b.st.cpus[j]? = st.cpus[j]?) ∧
      (∀ (i id e s : Nat) (d : arm64_cpu), ids[i]? = some id → entry[i]? = some e → sp[i]? = some s →
        st.cpus[id]? = some d → toStart st id = true →
        (∀ i2 : Nat, i < i2 → ids[i2]? ≠ some id) →
        b.st.cpus[id]? = some { d with entry := e, stackp := s, fnlist := [] }) ∧
      (∀ j : Nat, (b.st.cpus[j]?).map arm64_cpu.id = (st.cpus[j]?).map arm64_cpu.id) := by
  have hs0 : SameCores st { st := { st with smp_aps_started := 0, bspdone := 0 }, calls := [] } :=
    ⟨rfl, rfl, fun _ => rfl⟩
  obtain ⟨b, e1, e2, e3, e4, e5⟩ :=
    lcpu_start_loop_spec p fw st ids sp entry ids.length hsp hen hvalid ids.length 0 _
      (by omega) hs0
  simp only [List.map_nil, List.nil_append, List.drop_zero] at e3
  have hloop : lcpu_start_loop p fw ⟨some ids, sp, entry, ids.length⟩
      ((ids.length : Int).toNat) 0
      { st := { st with smp_aps_started := 0, bspdone := 0 }, calls := [] } = some b := by
    rw [Int.toNat_ofNat]; exact e1
  have hfacts :
      b.calls.map Prod.fst = (ids.filter (toStart st)).map (powerOn p st) ∧
      (∀ j : Nat, (∀ i : Nat, ids[i]? = some j → toStart st j = false) → b.st.cpus[j]? = st.cpus[j]?) ∧
      (∀ (i id e s : Nat) (d : arm64_cpu), ids[i]? = some id → entry[i]? = some e → sp[i]? = some s →
        st.cpus[id]? = some d → toStart st id = true →
        (∀ i2 : Nat, i < i2 → ids[i2]? ≠ some id) →
        b.st.cpus[id]? = some { d with entry := e, stackp := s, fnlist := [] }) ∧
      (∀ j : Nat, (b.st.cpus[j]?).map arm64_cpu.id = (st.cpus[j]?).map arm64_cpu.id) :=
    ⟨e3, fun j hj => e4 j (fun i1 _ h => hj i1 h),
      fun i id e s d h1 h2 h3 h4 h5 h6 => e5 i id e s d (Nat.zero_le i) h1 h2 h3 h4 h5 h6,
      e2.2.2⟩
  unfold ukplat_lcpu_start
  simp only [hloop]
  by_cases hone : b.st.smp_numcores = 1
  · simp only [hone, if_true, StartResult.bringup]
    exact ⟨b, rfl, hfacts⟩
  · simp only [hone, if_false]
    cases hpoll : aps_poll obs fuel 0 0 0 with
    | none => exact ⟨_, rfl, hfacts⟩
    | some r => exact ⟨_, rfl, hfacts⟩

/-- C7 on the two-core machine: the request names the boot core, core 1 and
the unused slot 3; only core 1 is powered on, with a firmware that refuses. -/
theorem lcpu_start_power_on_witness :
    [0x48000000, 0x48010000, 0x48020000].length = [0, 1, 3].length ∧
    [0x40090000, 0x40091000, 0x40092000].length = [0, 1, 3].length ∧
    (∀ id ∈ [0, 1, 3], id < (demoState (some .hvc)).cpus.length) ∧
    ∃ b, (ukplat_lcpu_start demoPlatform (fun _ _ => -4) (fun _ => (0, 0)) 1
            (demoState (some .hvc))
            ⟨some [0, 1, 3], [0x48000000, 0x48010000, 0x48020000],
              [0x40090000, 0x40091000, 0x40092000], ([0, 1, 3] : List Nat).length⟩).bringup
          = some b ∧
      b.calls.map Prod.fst
        = ([0, 1, 3].filter (toStart (demoState (some .hvc)))).map
            (powerOn demoPlatform (demoState (some .hvc))) ∧
      (∀ j : Nat, (∀ i : Nat, ([0, 1, 3] : List Nat)[i]? = some j → toStart (demoState (some .hvc)) j = false) →
        b.st.cpus[j]? = (demoState (some .hvc)).cpus[j]?) ∧
      (∀ (i id e s : Nat) (d : arm64_cpu), ([0, 1, 3] : List Nat)[i]? = some id →
        ([0x40090000, 0x40091000, 0x40092000] : List Nat)[i]? = some e →
        ([0x48000000, 0x48010000, 0x48020000] : List Nat)[i]? = some s →
        (demoState (some .hvc)).cpus[id]? = some d →
        toStart (demoState (some .hvc)) id = true →
        (∀ i2 : Nat, i < i2 → ([0, 1, 3] : List Nat)[i2]? ≠ some id) →
        b.st.cpus[id]? = some { d with entry := e, stackp := s, fnlist := [] }) ∧
      (∀ j : Nat, (b.st.cpus[j]?).map arm64_cpu.id
        = ((demoState (some .hvc)).cpus[j]?).map arm64_cpu.id) :=
  ⟨rfl, rfl, by decide,
    lcpu_start_power_on demoPlatform (fun _ _ => -4) (fun _ => (0, 0)) 1
      (demoState (some .hvc)) [0, 1, 3] [0x48000000, 0x48010000, 0x48020000]
      [0x40090000, 0x40091000, 0x40092000] rfl rfl (by decide)⟩

/-- C8. An id that does not index a discovered core is not always skipped:
on the two-core machine (count 2, slots 2 and 3 unused with the sentinel
hardware id `2^64 - 1`), a request for logical id 2 passes the test
`logic_id > smp_numcores`, so `ukplat_lcpu_start` records entry and stack in
the unused descriptor and issues `PSCI_FNID_CPU_ON` with the sentinel as
target. -/
theorem lcpu_start_powers_on_unused_slot :
    (demoState (some .hvc)).smp_numcores = 2 ∧
    (demoState (some .hvc)).cpus[2]? = some ⟨2 ^ 64 - 1, 0, 0, []⟩ ∧
    ukplat_lcpu_start demoPlatform fwAccept (fun _ => (0, 0)) 1 (demoState (some .hvc))
        { lcpuid := some [2], sp := [0x48000000], entry := [0x40090000], num := 1 }
      = .ret 0
          { st := { cpus := [⟨0, 0, 0, []⟩, ⟨1, 0, 0, []⟩,
                             ⟨2 ^ 64 - 1, 0x40090000, 0x48000000, []⟩, ⟨2 ^ 64 - 1, 0, 0, []⟩],
                    smp_numcores := 2, bspid := 0, bspdone := 1, smp_aps_started := 0,
                    smp_aps_running := 0, smcc_psci_call := some .hvc },
            calls := [(⟨.hvc, PSCI_FNID_CPU_ON, 2 ^ 64 - 1, 0x40080000, 0x40200060⟩,
                       PSCI_RET_SUCCESS)] }
          1 := by
  refine ⟨rfl, rfl, ?_⟩
  decide

/-- C9. The power-on call does not go through the conduit the device tree
names. With method `"smc"` the start-up code selects the secure-monitor
conduit, and with no `method` property it disables the interface, yet in
both cases `psci_cpu_on` issues its call through the hypervisor-call
conduit. -/
theorem psci_cpu_on_ignores_conduit :
    _dtb_get_psci_method (demoDtb [cpuNode 0, cpuNode 1] (some ⟨4, "smc"⟩)) = some .smc ∧
    psci_cpu_on demoPlatform
        (demoState (_dtb_get_psci_method (demoDtb [cpuNode 0, cpuNode 1] (some ⟨4, "smc"⟩))))
        1 0x40080000
      = some ⟨.hvc, PSCI_FNID_CPU_ON, 1, 0x40080000, 0x40200030⟩ ∧
    _dtb_get_psci_method (demoDtb [cpuNode 0, cpuNode 1] none) = none ∧
    psci_cpu_on demoPlatform
        (demoState (_dtb_get_psci_method (demoDtb [cpuNode 0, cpuNode 1] none)))
        1 0x40080000
      = some ⟨.hvc, PSCI_FNID_CPU_ON, 1, 0x40080000, 0x40200030⟩ := by
  refine ⟨by decide, by decide, by decide, by decide⟩

/-- A subnode that is not a cpu is passed over by the subnode loop, provided
it declares enable-method `"psci"`. -/
theorem smp_init_nodes_other (n : CpuNode) (ns : List CpuNode) (index : Nat)
    (cpus : List arm64_cpu) (hm : n.enable_method = some "psci") (hc : isCpu n = false) :
    smp_init_nodes (n :: ns) index cpus = smp_init_nodes ns index cpus := by
  unfold isCpu at hc
  rw [smp_init_nodes, hm]
  simp only [ne_eq, not_true_eq_false, if_false]
  cases hdt : n.device_type with
  | none => rfl
  | some dt =>
    rw [hdt] at hc
    simp only [Bool.and_eq_false_imp, decide_eq_true_eq, beq_eq_false_iff_ne, ne_eq] at hc
    by_cases h4 : dt.prop_len < 4
    · simp only [h4, if_true]
    · have := hc (by omega)
      simp only [h4, if_false, ne_eq, this, not_false_eq_true, if_true]

/-- A cpu subnode with a non-empty `reg` property takes the next logical
id. -/
theorem smp_init_nodes_cpu (n : CpuNode) (ns : List CpuNode) (index : Nat)
    (cpus : List arm64_cpu) (d : arm64_cpu) (r : RegProp)
    (hm : n.enable_method = some "psci") (hc : isCpu n = true)
    (hr : n.reg = some r) (hlen : 0 < r.prop_len) (hd : cpus[index]? = some d) :
    smp_init_nodes (n :: ns) index cpus
      = smp_init_nodes ns (index + 1) (cpus.set index { d with id := hwid n }) := by
  unfold isCpu at hc
  rw [smp_init_nodes, hm]
  simp only [ne_eq, not_true_eq_false, if_false]
  cases hdt : n.device_type with
  | none => rw [hdt] at hc; cases hc
  | some dt =>
    rw [hdt] at hc
    simp only [Bool.and_eq_true, decide_eq_true_eq, beq_iff_eq] at hc
    have h4 : ¬ dt.prop_len < 4 := by omega
    have h0 : ¬ r.prop_len ≤ 0 := by omega
    simp only [h4, if_false, hc.2, ne_eq, not_true_eq_false, hr, h0, hd, hwid]

/-- The subnode loop on a description that passes all its checks: it runs
to its end, the index has advanced by the number of cpu subnodes, their
hardware ids sit at the logical ids from `index` on in description order,
and every other slot is untouched. -/
theorem smp_init_nodes_spec (nodes : List CpuNode) :
    ∀ (index : Nat) (cpus : List arm64_cpu),
      (∀ n ∈ nodes, n.enable_method = some "psci") →
      (∀ n ∈ nodes, isCpu n = true → ∃ r, n.reg = some r ∧ 0 < r.prop_len) →
      index + (nodes.filter isCpu).length ≤ cpus.length →
      ∃ cpus1, smp_init_nodes nodes index cpus
          = .done (index + (nodes.filter isCpu).length) cpus1 ∧
        cpus1.length = cpus.length ∧
        (∀ i : Nat, i < (nodes.filter isCpu).length →
          (cpus1[index + i]?).map arm64_cpu.id = ((nodes.filter isCpu)[i]?).map hwid) ∧
        (∀ j : Nat, j < index ∨ index + (nodes.filter isCpu).length ≤ j →
          cpus1[j]? = cpus[j]?) := by
  induction nodes with
  | nil =>
    intro index cpus _ _ _
    exact ⟨cpus, by simp [smp_init_nodes], rfl, fun i hi => by simp at hi, fun _ _ => rfl⟩
  | cons n ns ih =>
    intro index cpus hm hr hlen
    have hmn := hm n (List.mem_cons_self n ns)
    have hm1 : ∀ n1 ∈ ns, n1.enable_method = some "psci" :=
      fun n1 h => hm n1 (List.mem_cons_of_mem n h)
    have hr1 : ∀ n1 ∈ ns, isCpu n1 = true → ∃ r, n1.reg = some r ∧ 0 < r.prop_len :=
      fun n1 h => hr n1 (List.mem_cons_of_mem n h)
    by_cases hc : isCpu n = true
    · have hf : (n :: ns).filter isCpu = n :: ns.filter isCpu := by
        rw [List.filter_cons, if_pos hc]
      rw [hf] at hlen ⊢
      simp only [List.length_cons] at hlen ⊢
      obtain ⟨r, hreg, hrl⟩ := hr n (List.mem_cons_self n ns) hc
      have hlt : index < cpus.length := by omega
      have hd : cpus[index]? = some cpus[index] := List.getElem?_eq_getElem hlt
      rw [smp_init_nodes_cpu n ns index cpus cpus[index] r hmn hc hreg hrl hd]
      obtain ⟨cpus1, e1, e2, e3, e4⟩ :=
        ih (index + 1) (cpus.set index { cpus[index] with id := hwid n }) hm1 hr1
          (by simp only [List.length_set]; omega)
      refine ⟨cpus1, ?_, ?_, ?_, ?_⟩
      · rw [e1]
        congr 1
        omega
      · rw [e2, List.length_set]
      · intro i hi
        cases i with
        | zero =>
          rw [Nat.add_zero, e4 index (Or.inl (by omega)), List.getElem?_set_self hlt]
          simp
        | succ i =>
          have := e3 i (by omega)
          rw [show index + (i + 1) = index + 1 + i by omega, this]
          simp
      · intro j hj
        rw [e4 j (by omega), List.getElem?_set_ne (by omega)]
    · have hcf : isCpu n = false := by
        cases h : isCpu n with
        | true => exact absurd h hc
        | false => rfl
      have hf : (n :: ns).filter isCpu = ns.filter isCpu := by
        rw [List.filter_cons, if_neg hc]
      rw [hf] at hlen ⊢
      rw [smp_init_nodes_other n ns index cpus hmn hcf]
      exact ih index cpus hm1 hr1 hlen

/-- C10, as the code has it. For every platform description whose `/cpus`
node has a valid `#address-cells`, whose subnodes all declare enable-method
`"psci"`, whose cpu subnodes all carry a non-empty `reg` property and are at
most `CONFIG_MAX_CPUS` in number, `smp_init` returns `0`, sets the
discovered count to the number of cpu subnodes and stores their hardware ids
at logical ids `0, 1, 2, ...` in description order; subnodes that are not
cpus take no logical id. The boot core id is the one `ukplat_lcpu_id`
reads. -/
theorem smp_init_discovers (p : Platform) (dtb : Dtb) (naddr0 : Int) (mpidr_reg : Nat)
    (st : SmpState) (c : Nat) (nodes : List CpuNode)
    (hd : dtb.cpus = some (some c, nodes))
    (hc31 : c < 2 ^ 31) (hcells : (c : Int) < p.FDT_MAX_NCELLS)
    (hm : ∀ n ∈ nodes, n.enable_method = some "psci")
    (hr : ∀ n ∈ nodes, isCpu n = true → ∃ r, n.reg = some r ∧ 0 < r.prop_len)
    (hmax : (nodes.filter isCpu).length ≤ st.cpus.length) :
    ∃ st1, smp_init p dtb naddr0 mpidr_reg st = .ret 0 st1 ∧
      st1.smp_numcores = (nodes.filter isCpu).length ∧
      st1.cpus.length = st.cpus.length ∧
      (∀ i : Nat, i < (nodes.filter isCpu).length →
        (st1.cpus[i]?).map arm64_cpu.id = ((nodes.filter isCpu)[i]?).map hwid) ∧
      st1.bspid = ukplat_lcpu_id mpidr_reg := by
  obtain ⟨cpus1, e1, e2, e3, _⟩ :=
    smp_init_nodes_spec nodes 0 (st.cpus.map fun d => { d with id := 2 ^ 64 - 1 }) hm hr
      (by simp only [List.length_map]; omega)
  have hmod : c % 2 ^ 32 = c := Nat.mod_eq_of_lt (by omega)
  have hnaddr : ¬ (((c : Nat) : Int) < 0 ∨ ((c : Nat) : Int) ≥ p.FDT_MAX_NCELLS) := by omega
  have hlt31 : c < 2 ^ 31 := hc31
  refine ⟨{ st with cpus := cpus1, smp_numcores := 0 + (nodes.filter isCpu).length,
                    bspid := ukplat_lcpu_id mpidr_reg }, ?_, by simp, ?_, ?_, rfl⟩
  · unfold smp_init
    simp only [hd, hmod, hlt31, if_true, hnaddr, if_false, e1]
  · simpa using e2
  · intro i hi
    simpa using e3 i hi

/-- C10 on the two-entry description `hw 0, hw 1`, with a `cpu-map`-like
subnode that is not a cpu between them: the count is 2, logical id 0 is
hardware id 0 and logical id 1 is hardware id 1. -/
theorem smp_init_discovers_witness :
    (demoDtb [cpuNode 0, ⟨some "psci", none, none⟩, cpuNode 1] none).cpus
      = some (some 1, [cpuNode 0, ⟨some "psci", none, none⟩, cpuNode 1]) ∧
    ∃ st1, smp_init demoPlatform
        (demoDtb [cpuNode 0, ⟨some "psci", none, none⟩, cpuNode 1] none) 0 0x80000000 bootState
          = .ret 0 st1 ∧
      st1.smp_numcores = 2 ∧
      (st1.cpus[0]?).map arm64_cpu.id = some 0 ∧
      (st1.cpus[1]?).map arm64_cpu.id = some 1 :=
  have hm : ∀ n ∈ [cpuNode 0, ⟨some "psci", none, none⟩, cpuNode 1],
      n.enable_method = some "psci" := by decide
  have hr : ∀ n ∈ [cpuNode 0, ⟨some "psci", none, none⟩, cpuNode 1],
      isCpu n = true → ∃ r, n.reg = some r ∧ 0 < r.prop_len := by
    intro n hn hc
    simp only [List.mem_cons, List.mem_singleton, List.not_mem_nil, or_false] at hn
    rcases hn with rfl | rfl | rfl
    · exact ⟨⟨4, 0⟩, rfl, by decide⟩
    · cases hc
    · exact ⟨⟨4, 1⟩, rfl, by decide⟩
  have h := smp_init_discovers demoPlatform
    (demoDtb [cpuNode 0, ⟨some "psci", none, none⟩, cpuNode 1] none) 0 0x80000000 bootState 1
    [cpuNode 0, ⟨some "psci", none, none⟩, cpuNode 1] rfl (by decide) (by decide) hm hr
    (by decide)
  ⟨rfl, by
    obtain ⟨st1, e1, e2, _, e4, _⟩ := h
    exact ⟨st1, e1, e2, e4 0 (by decide), e4 1 (by decide)⟩⟩

/-- C10 on a description whose only subnode is a cpu with enable-method
`"psci"` and no `reg` property: as claimed `smp_init` would return `0` with
a count of `0` (no subnode has both `device_type` `"cpu"` and a `reg`
property); the code returns `-1` and leaves the count as it was. -/
theorem smp_init_rejects_cpu_without_reg :
    (∀ n ∈ [(⟨some "psci", some ⟨4, "cpu"⟩, none⟩ : CpuNode)],
      n.enable_method = some "psci") ∧
    ([(⟨some "psci", some ⟨4, "cpu"⟩, none⟩ : CpuNode)].filter
      (fun n => isCpu n && n.reg.isSome)).length = 0 ∧
    smp_init demoPlatform (demoDtb [⟨some "psci", some ⟨4, "cpu"⟩, none⟩] none) 0 0
        { bootState with smp_numcores := 7 }
      = .ret (-1)
          { cpus := [⟨2 ^ 64 - 1, 0, 0, []⟩, ⟨2 ^ 64 - 1, 0, 0, []⟩, ⟨2 ^ 64 - 1, 0, 0, []⟩,
                     ⟨2 ^ 64 - 1, 0, 0, []⟩],
            smp_numcores := 7, bspid := 0, bspdone := 0, smp_aps_started := 0,
            smp_aps_running := 0, smcc_psci_call := none } := by
  refine ⟨by decide, by decide, by decide⟩

/-- A single-bit mask selects exactly that bit. -/
theorem and_two_pow_ne_zero (x k : Nat) : x &&& 2 ^ k ≠ 0 ↔ x.testBit k = true := by
  constructor
  · intro h
    by_contra hb
    apply h
    apply Nat.eq_of_testBit_eq
    intro i
    rw [Nat.testBit_and, Nat.testBit_two_pow, Nat.zero_testBit]
    by_cases hki : k = i
    · subst hki
      simp only [Bool.not_eq_true] at hb
      simp [hb]
    · simp [hki]
  · intro hb h
    have : (x &&& 2 ^ k).testBit k = true := by
      rw [Nat.testBit_and, hb, Nat.testBit_two_pow_self]
      rfl
    rw [h, Nat.zero_testBit] at this
    cases this

/-- C12. `uk_rwlock_init_config` rejects the write-recursive configuration:
for every `config_flags`, its assertion fails exactly when the
write-recursive flag is set (a bit of the mask is set in `config_flags`; for
a flag that is bit `k`, exactly when bit `k` of `config_flags` is set). When
it does not fail it leaves a free lock: `nactive`, `npending_reads` and
`npending_writes` are `0` and `config_flags` is stored, whatever the memory
held before. -/
theorem init_config_rejects_write_recursive (wr_mask : Nat) (mem : uk_rwlock)
    (config_flags : Nat) :
    ((∃ l, uk_rwlock_init_config wr_mask mem config_flags = .assertFailed l)
      ↔ config_flags &&& wr_mask ≠ 0) ∧
    (∀ k, (∃ l, uk_rwlock_init_config (2 ^ k) mem config_flags = .assertFailed l)
      ↔ config_flags.testBit k = true) ∧
    (config_flags &&& wr_mask = 0 →
      uk_rwlock_init_config wr_mask mem config_flags
        = .leave { nactive := 0, npending_reads := 0, npending_writes := 0,
                   config_flags := config_flags }) ∧
    (∀ l, uk_rwlock_init_config wr_mask mem config_flags = .leave l →
      l.nactive = 0 ∧ l.npending_reads = 0 ∧ l.npending_writes = 0 ∧
      l.config_flags = config_flags) := by
  have key : ∀ m, (∃ l, uk_rwlock_init_config m mem config_flags = .assertFailed l)
      ↔ config_flags &&& m ≠ 0 := by
    intro m
    unfold uk_rwlock_init_config uk_rwlock_is_write_recursive
    by_cases h : config_flags &&& m = 0
    · simp [h]
    · simp [h]
  refine ⟨key wr_mask, fun k => (key (2 ^ k)).trans (and_two_pow_ne_zero config_flags k), ?_, ?_⟩
  · intro h
    simp [uk_rwlock_init_config, uk_rwlock_is_write_recursive, h]
  · intro l h
    unfold uk_rwlock_init_config at h
    simp only at h
    split at h
    · cases h
    · cases h
      exact ⟨rfl, rfl, rfl, rfl⟩

/-- Run alone, the loop of `uk_rwlock_upgrade` only polls as long as the
lock is not free: it never reaches its assertions. -/
theorem spin_upgrade_busy (fuel : Nat) (l : uk_rwlock) (h : l.nactive ≠ 0) :
    (spin upgrade_poll fuel l).out = .spinning l := by
  induction fuel with
  | zero => rfl
  | succ fuel ih =>
    have hp : upgrade_poll l = .wait l := by simp [upgrade_poll, h]
    simp only [spin, hp]
    exact ih

/-- C13. Lock misuse is a crash on assertion. For every lock state:
`uk_rwlock_runlock` fails its assertion exactly when `nactive <= 0`,
`uk_rwlock_wunlock` and `uk_rwlock_downgrade` exactly when `nactive != -1`,
and `uk_rwlock_upgrade` (whatever the polling bound) exactly when
`nactive <= 0`. In each failing case nothing has been published and the
assertion fires on the lock as it was, all counters unmodified. Among other
callers the later assertions of `uk_rwlock_upgrade` cannot fire either while
a write request is pending. -/
theorem misuse_fails_assertion (l : uk_rwlock) (fuel : Nat) :
    ((uk_rwlock_runlock l = ⟨[], .assertFailed l⟩ ↔ l.nactive ≤ 0) ∧
      (∀ l1, (uk_rwlock_runlock l).out = .assertFailed l1 →
        uk_rwlock_runlock l = ⟨[], .assertFailed l⟩)) ∧
    ((uk_rwlock_wunlock l = ⟨[], .assertFailed l⟩ ↔ l.nactive ≠ -1) ∧
      (∀ l1, (uk_rwlock_wunlock l).out = .assertFailed l1 →
        uk_rwlock_wunlock l = ⟨[], .assertFailed l⟩)) ∧
    ((uk_rwlock_downgrade l = ⟨[], .assertFailed l⟩ ↔ l.nactive ≠ -1) ∧
      (∀ l1, (uk_rwlock_downgrade l).out = .assertFailed l1 →
        uk_rwlock_downgrade l = ⟨[], .assertFailed l⟩)) ∧
    ((uk_rwlock_upgrade fuel l = ⟨[], .assertFailed l⟩ ↔ l.nactive ≤ 0) ∧
      (∀ l1, (uk_rwlock_upgrade fuel l).out = .assertFailed l1 →
        uk_rwlock_upgrade fuel l = ⟨[], .assertFailed l⟩)) ∧
    (0 < l.npending_writes → ∀ l1, upgrade_poll l ≠ .assertFailed l1) := by
  refine ⟨⟨?_, ?_⟩, ⟨?_, ?_⟩, ⟨?_, ?_⟩, ⟨?_, ?_⟩, ?_⟩
  · by_cases h : l.nactive > 0
    · simp [uk_rwlock_runlock, single, runlock_section, h]
    · simp [uk_rwlock_runlock, single, runlock_section, h]
      omega
  · intro l1
    by_cases h : l.nactive > 0
    · simp [uk_rwlock_runlock, single, runlock_section, h]
    · simp [uk_rwlock_runlock, single, runlock_section, h]
  · by_cases h : l.nactive = -1
    · simp [uk_rwlock_wunlock, single, wunlock_section, h]
    · simp [uk_rwlock_wunlock, single, wunlock_section, h]
  · intro l1
    by_cases h : l.nactive = -1
    · simp [uk_rwlock_wunlock, single, wunlock_section, h]
    · simp [uk_rwlock_wunlock, single, wunlock_section, h]
  · by_cases h : l.nactive = -1
    · simp [uk_rwlock_downgrade, single, downgrade_section, h]
    · simp [uk_rwlock_downgrade, single, downgrade_section, h]
  · intro l1
    by_cases h : l.nactive = -1
    · simp [uk_rwlock_downgrade, single, downgrade_section, h]
    · simp [uk_rwlock_downgrade, single, downgrade_section, h]
  · by_cases h1 : l.nactive = 1
    · simp [uk_rwlock_upgrade, upgrade_enter, h1]
    · by_cases h2 : l.nactive > 1
      · have hp := spin_upgrade_busy fuel
          { l with npending_writes := l.npending_writes + 1, nactive := l.nactive - 1 }
          (by simp only; omega)
        simp only [uk_rwlock_upgrade, upgrade_enter, h1, h2, if_false, not_true_eq_false]
        constructor
        · intro h
          cases h
        · intro h; omega
      · simp only [uk_rwlock_upgrade, upgrade_enter, h1, h2, if_false, not_false_eq_true,
          if_true, true_iff]
        omega
  · intro l1
    by_cases h1 : l.nactive = 1
    · simp [uk_rwlock_upgrade, upgrade_enter, h1]
    · by_cases h2 : l.nactive > 1
      · have hp := spin_upgrade_busy fuel
          { l with npending_writes := l.npending_writes + 1, nactive := l.nactive - 1 }
          (by simp only; omega)
        simp only [uk_rwlock_upgrade, upgrade_enter, h1, h2, if_false, not_true_eq_false, hp]
        intro h
        cases h
      · simp only [uk_rwlock_upgrade, upgrade_enter, h1, h2, if_false, not_false_eq_true,
          if_true, implies_true]
  · intro hpw l1
    unfold upgrade_poll
    by_cases h0 : l.nactive = 0
    · simp [h0, hpw]
    · simp [h0]

/-- C15. `ukplat_lcpu_id` does not return all affinity bits. Even when the
whole register reaches `mpidr_reg`, the result is a 32-bit `__lcpuid`: it
equals `r & 0xffffff`, so `Aff3` (bits 32 to 39) is lost. For
`r = 0x180000000` (`Aff3 = 1`, all other affinity fields `0`, bit 31 set as
the architecture has it) the result is `0`, not
`r & 0xff00ffffff = 0x100000000`, and it is the id of the core with
`r = 0x80000000` (`Aff3 = 0`) as well. -/
theorem lcpu_id_drops_aff3 :
    (∀ r, ukplat_lcpu_id r = r &&& 0xffffff) ∧
    ukplat_lcpu_id 0x180000000 = 0 ∧
    0x180000000 &&& 0xff00ffffff = 0x100000000 ∧
    ukplat_lcpu_id 0x180000000 = ukplat_lcpu_id 0x80000000 := by
  refine ⟨?_, by decide, by decide, by decide⟩
  intro r
  unfold ukplat_lcpu_id
  rw [← Nat.and_pow_two_sub_one_eq_mod, Nat.and_assoc]
  rfl

/-- The recorded value is a 64-bit value. -/
theorem recorded_lt (obs : Observed) : ∀ k, recorded obs k < 2 ^ 64 := by
  intro k
  induction k with
  | zero => simp [recorded]
  | succ k ih =>
    unfold recorded
    split_ifs
    · exact Nat.mod_lt _ (by norm_num)
    · exact ih

/-- A poll that does not end the loop uses up one of the polls left. -/
theorem pollsLeft_decreases (obs : Observed) (k : Nat) (h : counterAt obs k < 20000) :
    pollsLeft obs (k + 1) + 1 ≤ pollsLeft obs k := by
  have hr := recorded_lt obs k
  have hr1 := recorded_lt obs (k + 1)
  unfold pollsLeft
  by_cases hp : SeesProgress obs k
  · obtain ⟨e1, e2⟩ := after_progress obs k hp
    unfold SeesProgress at hp
    rw [e1]
    rw [e2] at hr1 ⊢
    norm_num at hr hr1 ⊢
    omega
  · obtain ⟨e1, e2⟩ := after_stall obs k hp
    rw [e1, e2]
    omega

/-- As long as no poll ends the loop, the polls made and the polls left
stay within the first estimate. -/
theorem pollsLeft_bound (obs : Observed) :
    ∀ k, (∀ m, m < k → counterAt obs m < 20000 ∧ ¬ SeesAll obs m) →
      pollsLeft obs k + k ≤ pollsLeft obs 0 := by
  intro k
  induction k with
  | zero => intro _; omega
  | succ k ih =>
    intro h
    have h1 := ih (fun m hm => h m (by omega))
    have h2 := pollsLeft_decreases obs k (h k (by omega)).1
    omega

/-- Without an observed increase so far the counter is the number of polls
made. -/
theorem counterAt_no_progress (obs : Observed) :
    ∀ k, (∀ m, m < k → ¬ SeesProgress obs m) → counterAt obs k = k := by
  intro k
  induction k with
  | zero => intro _; rfl
  | succ k ih =>
    intro h
    rw [(after_stall obs k (h k (by omega))).1, ih (fun m hm => h m (by omega))]

/-- After the last observed increase, at poll `j`, the counter is the number
of polls made since, that poll included. -/
theorem counterAt_after_last (obs : Observed) (j : Nat) (hp : SeesProgress obs j) :
    ∀ k, j < k → (∀ m, j < m → m < k → ¬ SeesProgress obs m) → counterAt obs k = k - j := by
  intro k
  induction k with
  | zero => intro h; omega
  | succ k ih =>
    intro hjk h
    by_cases hk : k = j
    · subst hk
      rw [(after_progress obs k hp).1]
      omega
    · rw [(after_stall obs k (h k (by omega) (by omega))).1,
        ih (by omega) (fun m hm1 hm2 => h m hm1 (by omega))]
      omega

/-- C16. The wait loop of `ukplat_lcpu_start` terminates for every sequence
of observed counter values: there are a value `v`, `0` or `-1`, and a number
`n` of polls such that the loop returns `v` after `n` polls as soon as it is
allowed more than `n` passes. `n` is at most `20000 * 2^64 + 1`, at most
20000 polls are made after the last observed increase (that poll not
counted), and at most 20000 in all if no increase is observed. -/
theorem aps_poll_terminates (obs : Observed) :
    ∃ (v : Int) (n : Nat), (v = 0 ∨ v = -1) ∧
      (∀ fuel, n < fuel → aps_poll obs fuel 0 0 0 = some (v, n)) ∧
      n ≤ 20000 * 2 ^ 64 + 1 ∧
      (∀ j, j < n → SeesProgress obs j →
        (∀ m, j < m → m < n → ¬ SeesProgress obs m) → n - (j + 1) ≤ 20000) ∧
      ((∀ j, j < n → ¬ SeesProgress obs j) → n ≤ 20000) := by
  have h0 : counterAt obs 0 = 0 := rfl
  have h00 : recorded obs 0 = 0 := rfl
  have hP0 : pollsLeft obs 0 = 20000 * 2 ^ 64 := by
    unfold pollsLeft
    rw [h0, h00]
    norm_num
  have hex : ∃ k, ¬ (counterAt obs k < 20000 ∧ ¬ SeesAll obs k) := by
    by_contra hcon
    push_neg at hcon
    have := pollsLeft_bound obs (pollsLeft obs 0 + 1) (fun m _ => by
      obtain ⟨c1, c2⟩ := hcon m
      exact ⟨c1, c2⟩)
    omega
  classical
  have hmin : ∀ m, m < Nat.find hex → counterAt obs m < 20000 ∧ ¬ SeesAll obs m := by
    intro m hm
    have := Nat.find_min hex hm
    exact not_not.mp this
  have hspec := Nat.find_spec hex
  have hbound := pollsLeft_bound obs (Nat.find hex) hmin
  have hrun : ∀ f, aps_poll obs (Nat.find hex + f) 0 0 0
      = aps_poll obs f (counterAt obs (Nat.find hex)) (recorded obs (Nat.find hex))
          (Nat.find hex) := by
    intro f
    have := aps_poll_run obs (Nat.find hex) 0 (fun m _ hm => hmin m (by omega)) f
    simp only [Nat.zero_add] at this
    rw [h0, h00] at this
    exact this
  -- the two bounds follow from the counter staying below 20000 at every poll made
  have hbounds : ∀ n, (∀ m, m < n → counterAt obs m < 20000) →
      (∀ j, j < n → SeesProgress obs j →
        (∀ m, j < m → m < n → ¬ SeesProgress obs m) → n - (j + 1) ≤ 20000) ∧
      ((∀ j, j < n → ¬ SeesProgress obs j) → n ≤ 20000) := by
    intro n hn
    constructor
    · intro j hj hp hlast
      by_cases hjn : j + 1 = n
      · omega
      · have hc := counterAt_after_last obs j hp (n - 1) (by omega)
          (fun m hm1 hm2 => hlast m hm1 (by omega))
        have := hn (n - 1) (by omega)
        omega
    · intro hno
      by_cases hn0 : n = 0
      · omega
      · have hc := counterAt_no_progress obs (n - 1) (fun m hm => hno m (by omega))
        have := hn (n - 1) (by omega)
        omega
  by_cases hc : counterAt obs (Nat.find hex) < 20000
  · have ha : SeesAll obs (Nat.find hex) := by
      by_contra hna
      exact hspec ⟨hc, hna⟩
    refine ⟨0, Nat.find hex + 1, Or.inl rfl, ?_, by omega, ?_⟩
    · intro fuel hf
      obtain ⟨f, rfl⟩ : ∃ f, fuel = Nat.find hex + (f + 1) :=
        ⟨fuel - Nat.find hex - 1, by omega⟩
      rw [hrun (f + 1)]
      exact aps_poll_all obs f _ _ _ hc ha
    · apply hbounds
      intro m hm
      by_cases hmk : m = Nat.find hex
      · rw [hmk]; exact hc
      · exact (hmin m (by omega)).1
  · refine ⟨-1, Nat.find hex, Or.inr rfl, ?_, by omega, ?_⟩
    · intro fuel hf
      obtain ⟨f, rfl⟩ : ∃ f, fuel = Nat.find hex + (f + 1) :=
        ⟨fuel - Nat.find hex - 1, by omega⟩
      rw [hrun (f + 1)]
      exact aps_poll_timeout obs f _ _ _ hc
    · apply hbounds
      intro m hm
      exact (hmin m hm).1

/-- When the subnode loop runs to its end, the index it reaches is within
the array and every slot from that index on still carries the sentinel. -/
theorem smp_init_nodes_inv (nodes : List CpuNode) :
    ∀ (index : Nat) (cpus : List arm64_cpu) (index1 : Nat) (cpus1 : List arm64_cpu),
      smp_init_nodes nodes index cpus = .done index1 cpus1 →
      index ≤ cpus.length →
      (∀ j : Nat, index ≤ j → j < cpus.length →
        (cpus[j]?).map arm64_cpu.id = some (2 ^ 64 - 1)) →
      index1 ≤ cpus1.length ∧ cpus1.length = cpus.length ∧
      (∀ j : Nat, index1 ≤ j → j < cpus1.length →
        (cpus1[j]?).map arm64_cpu.id = some (2 ^ 64 - 1)) := by
  induction nodes with
  | nil =>
    intro index cpus index1 cpus1 h hi hs
    simp only [smp_init_nodes, NodeLoop.done.injEq] at h
    obtain ⟨rfl, rfl⟩ := h
    exact ⟨hi, rfl, hs⟩
  | cons n ns ih =>
    intro index cpus index1 cpus1 h hi hs
    rw [smp_init_nodes] at h
    have rec1 := ih index cpus index1 cpus1
    split at h
    · cases h
    · split_ifs at h
      split at h
      · exact rec1 h hi hs
      · split_ifs at h
        all_goals first
          | exact rec1 h hi hs
          | skip
        split at h
        · cases h
        · split_ifs at h
          split at h
          · cases h
          · rename_i d hd
            have hlt : index < cpus.length := by
              rcases List.getElem?_eq_some_iff.mp hd with ⟨hl, _⟩
              exact hl
            have := ih (index + 1) _ index1 cpus1 h
              (by rw [List.length_set]; omega)
              (fun j hj1 hj2 => by
                rw [List.length_set] at hj2
                rw [List.getElem?_set_ne (by omega)]
                exact hs j (by omega) hj2)
            rw [List.length_set] at this
            exact this

/-- C11. `smp_init` does not keep the count within `CONFIG_MAX_CPUS`. As
long as it returns `0` the count is at most the size of `cpus[]` and every
slot from the count on carries the sentinel `2^64 - 1`. But the subnode loop
has no bound on its index: on a kernel built with `CONFIG_MAX_CPUS = 4`, a
description with five cpu subnodes makes it store the fifth hardware id
behind the end of the array, at index 4. -/
theorem smp_init_overruns_registry :
    (∀ (p : Platform) (dtb : Dtb) (naddr0 : Int) (mpidr_reg : Nat) (st st1 : SmpState),
      smp_init p dtb naddr0 mpidr_reg st = .ret 0 st1 →
      st1.smp_numcores ≤ st1.cpus.length ∧ st1.cpus.length = st.cpus.length ∧
      ∀ j : Nat, st1.smp_numcores ≤ j → j < st1.cpus.length →
        (st1.cpus[j]?).map arm64_cpu.id = some (2 ^ 64 - 1)) ∧
    bootState.cpus.length = 4 ∧
    smp_init demoPlatform
        (demoDtb [cpuNode 0, cpuNode 1, cpuNode 2, cpuNode 3, cpuNode 4] none) 0 0x80000000
        bootState
      = .overrun 4 := by
  refine ⟨?_, rfl, by decide⟩
  intro p dtb naddr0 mpidr_reg st st1 h
  unfold smp_init at h
  simp only at h
  split_ifs at h
  split at h
  · cases h
  · simp only [InitResult.ret.injEq] at h
    omega
  · rename_i index cpus hloop
    simp only [InitResult.ret.injEq, true_and] at h
    subst h
    have := smp_init_nodes_inv _ 0 _ index cpus hloop (Nat.zero_le _)
      (fun j _ hj => by
        rw [List.length_map] at hj
        rw [List.getElem?_map, List.getElem?_eq_getElem hj]
        rfl)
    rw [List.length_map] at this
    exact this

end Unikraft
